import Mathlib

/-!
Verification of the send-side emission core of the `porous` reliable-datagram
transport (`src/endpoint/daten_meister/emit_frame.rs`).

The emitter itself (`DataFrameEmitter` and `FrameEmitter::emit_data_frames`,
`emit_ack_frames`, `emit_sync_frame`) is translated directly from the source
file.  Its collaborators (pending-packet store, packet sender, the five
queues, and the wire builders) live in sibling modules whose contracts the
specification describes, so they are modelled from the specification, as
marked on each definition.

The Rust loops are embedded as fuel-indexed recursive functions returning
`none` when the fuel runs out; every theorem about a complete run is stated
under the hypothesis that the run returned `some` result.  Machine integers
(`u64`, `usize`, `u16`, `u8`) are embedded as `Nat`; the only subtraction the
code performs (`bytes_remaining -= len`) is shown to never underflow, so `Nat`
truncated subtraction agrees with it.
-/

namespace Porous

/-- Wire-format constants.  Modelled from the spec: the wire codec is out of
scope ("treated here as opaque encode/decode with a known overhead constant"),
so `MAX_FRAME_SIZE`, `DATA_FRAME_OVERHEAD`, the size of an empty ack-frame
builder (the header plus the two window base ids) and `SYNC_FRAME_SIZE` are
parameters of the model. -/
structure Cfg where
  maxFrameSize : Nat
  dataFrameOverhead : Nat
  ackFrameBaseSize : Nat
  syncFrameSize : Nat
deriving Repr, DecidableEq

/-- `const MAX_SEND_COUNT: u8 = 2;` (emit_frame.rs line 14). -/
def MAX_SEND_COUNT : Nat := 2

/-- Modelled from the spec: one fragment of a pending packet, carrying its
acknowledgement bit and the encoded size of its datagram
(`DataFrameBuilder::encoded_size_ref`), the only two attributes the emitter
reads. -/
structure Fragment where
  acked : Bool
  encSize : Nat
deriving Repr, DecidableEq

/-- Modelled from the spec: a pending packet is a list of 1..=N fragments with
per-fragment acknowledgement bits. -/
structure PendingPacket where
  fragments : List Fragment
deriving Repr, DecidableEq

/-- `PendingPacket::last_fragment_id` — the spec mandates `1..=N` fragments,
so this is `fragments.length - 1`. -/
def PendingPacket.last_fragment_id (p : PendingPacket) : Nat :=
  p.fragments.length - 1

/-- `PendingPacket::fragment_acknowledged`.  Modelled from the spec:
reads the per-fragment acknowledgement bit. -/
def PendingPacket.fragment_acknowledged (p : PendingPacket) (i : Nat) : Bool :=
  match p.fragments.get? i with
  | some f => f.acked
  | none => false

/-- The part of a wire datagram the emitter observes: which fragment of which
packet it carries, and its encoded size. -/
structure Datagram where
  packet_id : Nat
  fragment_id : Nat
  encSize : Nat
deriving Repr, DecidableEq

/-- `PendingPacket::datagram(fragment_id)` — the datagram for one fragment. -/
def PendingPacket.datagram (p : PendingPacket) (pid i : Nat) : Datagram :=
  ⟨pid, i, (p.fragments.getD i ⟨false, 0⟩).encSize⟩

/-- Modelled from the spec: a fragment reference is the pair
`(weak_ref_to_packet, fragment_id)`; the weak reference is embedded as the
packet's id, resolved against the store of live packets. -/
structure FragmentRef where
  packet_id : Nat
  fragment_id : Nat
deriving Repr, DecidableEq

/-- Modelled from the spec: the set of live packets (those the Packet Sender
still keeps alive).  `Weak::upgrade` succeeds exactly when the id is found. -/
def storeLookup : List (Nat × PendingPacket) → Nat → Option PendingPacket
  | [], _ => none
  | (k, p) :: rest, pid => if k = pid then some p else storeLookup rest pid

/-- A pending-queue entry: `(FragmentRef, resend: bool)`. -/
structure PendingEntry where
  fragment_ref : FragmentRef
  resend : Bool
deriving Repr, DecidableEq

/-- A resend-queue entry: `(FragmentRef, resend_time_ms, send_count)`. -/
structure ResendEntry where
  fragment_ref : FragmentRef
  resend_time : Nat
  send_count : Nat
deriving Repr, DecidableEq

/-- Modelled from the spec: the resend queue is a priority queue ordered by
`resend_time` ascending; embedded as a sorted list with ordered insertion
(ties keep the earlier-inserted entry first). -/
def resendPush (e : ResendEntry) : List ResendEntry → List ResendEntry
  | [] => [e]
  | x :: xs => if e.resend_time < x.resend_time then e :: x :: xs else x :: resendPush e xs

/-- The sortedness invariant of the resend queue (ascending `resend_time`). -/
def sortedByTime : List ResendEntry → Bool
  | [] => true
  | [_] => true
  | a :: b :: rest => a.resend_time ≤ b.resend_time && sortedByTime (b :: rest)

/-- One slot of the Frame Queue:
`(frame_id, size_bytes, sent_time_ms, fragment_refs[], nonce_bit)`. -/
structure FrameQueueSlot where
  frame_id : Nat
  size : Nat
  sent_time : Nat
  fragment_refs : List FragmentRef
  nonce : Bool
deriving Repr, DecidableEq

/-- Modelled from the spec: the Frame Queue assigns monotone frame ids,
records sent frames, enforces a window of outstanding frames and carries the
rate-limited flag. -/
structure FrameQueue where
  next_id_ctr : Nat
  window_size : Nat
  slots : List FrameQueueSlot
  rate_limited : Bool
deriving Repr, DecidableEq

/-- `FrameQueue::can_push` — the frame window can admit another frame. -/
def FrameQueue.can_push (fq : FrameQueue) : Bool :=
  fq.slots.length < fq.window_size

/-- `FrameQueue::next_id`. -/
def FrameQueue.next_id (fq : FrameQueue) : Nat := fq.next_id_ctr

/-- `FrameQueue::push(size, now_ms, fragment_refs, nonce)`. -/
def FrameQueue.push (fq : FrameQueue) (size now_ms : Nat)
    (fragment_refs : List FragmentRef) (nonce : Bool) : FrameQueue :=
  { fq with
    slots := fq.slots ++ [⟨fq.next_id_ctr, size, now_ms, fragment_refs, nonce⟩]
    next_id_ctr := fq.next_id_ctr + 1 }

/-- `FrameQueue::mark_rate_limited`. -/
def FrameQueue.mark_rate_limited (fq : FrameQueue) : FrameQueue :=
  { fq with rate_limited := true }

/-- `enum EmitError { SizeLimited, WindowLimited }`. -/
inductive EmitError where
  | sizeLimited
  | windowLimited
deriving Repr, DecidableEq

/-- Modelled from the spec: a data-frame builder; its byte size is the frame
overhead plus the encoded sizes of the datagrams added so far. -/
structure DataFrameBuilder where
  frame_id : Nat
  nonce : Bool
  datagrams : List Datagram
deriving Repr, DecidableEq

/-- `DataFrameBuilder::size`. -/
def DataFrameBuilder.size (cfg : Cfg) (b : DataFrameBuilder) : Nat :=
  cfg.dataFrameOverhead + (b.datagrams.map (·.encSize)).sum

/-- `DataFrameBuilder::add`. -/
def DataFrameBuilder.add (b : DataFrameBuilder) (d : Datagram) : DataFrameBuilder :=
  { b with datagrams := b.datagrams ++ [d] }

/-- `struct InProgressDataFrame` (emit_frame.rs lines 21-25). -/
structure InProgressDataFrame where
  nonce : Bool
  fbuilder : DataFrameBuilder
  fragment_refs : List FragmentRef
deriving Repr, DecidableEq

/-- One data frame handed to the emit callback: its byte length (the length of
the encoded `frame_data`) and the content the emitter placed in it. -/
structure EmittedFrame where
  len : Nat
  frame_id : Nat
  nonce : Bool
  datagrams : List Datagram
deriving Repr, DecidableEq

/-- `struct DataFrameEmitter` (emit_frame.rs lines 27-37).  The `emitted` list
stands for the frames handed to the `callback`, and `nonces` for the stream of
`rand::random()` nonce bits. -/
structure DataFrameEmitter where
  now_ms : Nat
  frame_queue : FrameQueue
  in_progress_frame : Option InProgressDataFrame
  max_send_size : Nat
  bytes_remaining : Nat
  emitted : List EmittedFrame
  nonces : List Bool
deriving Repr, DecidableEq

/-- `DataFrameEmitter::new` (emit_frame.rs lines 40-52). -/
def DataFrameEmitter.new (now_ms : Nat) (frame_queue : FrameQueue)
    (max_send_size : Nat) (nonces : List Bool) : DataFrameEmitter :=
  { now_ms := now_ms
    frame_queue := frame_queue
    in_progress_frame := none
    max_send_size := max_send_size
    bytes_remaining := max_send_size
    emitted := []
    nonces := nonces }

/-- `DataFrameEmitter::push_initial` (emit_frame.rs lines 54-92).  Returns the
updated emitter together with `none` on `Ok(())` and `some e` on `Err(e)`. -/
def DataFrameEmitter.push_initial (cfg : Cfg) (dfe : DataFrameEmitter)
    (pid : Nat) (p : PendingPacket) (fragment_id : Nat) (persistent : Bool) :
    DataFrameEmitter × Option EmitError :=
  if ¬ dfe.frame_queue.can_push then
    (dfe, some .windowLimited)
  else
    let datagram := p.datagram pid fragment_id
    let potential_frame_size := cfg.dataFrameOverhead + datagram.encSize
    if potential_frame_size > dfe.bytes_remaining then
      ({ dfe with frame_queue := dfe.frame_queue.mark_rate_limited }, some .sizeLimited)
    else
      let frame_id := dfe.frame_queue.next_id
      let nonce := dfe.nonces.headD false
      let fbuilder := DataFrameBuilder.add ⟨frame_id, nonce, []⟩ datagram
      let fragment_refs : List FragmentRef :=
        if persistent then [⟨pid, fragment_id⟩] else []
      ({ dfe with
          in_progress_frame := some ⟨nonce, fbuilder, fragment_refs⟩
          nonces := dfe.nonces.tail }, none)

/-- `DataFrameEmitter::flush` (emit_frame.rs lines 123-134): finalise the
in-progress frame, register it with the Frame Queue, subtract its length from
the byte budget, and hand it to the callback. -/
def DataFrameEmitter.flush (cfg : Cfg) (dfe : DataFrameEmitter) : DataFrameEmitter :=
  match dfe.in_progress_frame with
  | none => dfe
  | some next_frame =>
    let len := next_frame.fbuilder.size cfg
    { dfe with
      in_progress_frame := none
      frame_queue := dfe.frame_queue.push len dfe.now_ms next_frame.fragment_refs next_frame.nonce
      bytes_remaining := dfe.bytes_remaining - len
      emitted := dfe.emitted ++
        [⟨len, next_frame.fbuilder.frame_id, next_frame.nonce, next_frame.fbuilder.datagrams⟩] }

/-- `DataFrameEmitter::push` (emit_frame.rs lines 94-121). -/
def DataFrameEmitter.push (cfg : Cfg) (dfe : DataFrameEmitter)
    (pid : Nat) (p : PendingPacket) (fragment_id : Nat) (persistent : Bool) :
    DataFrameEmitter × Option EmitError :=
  let datagram := p.datagram pid fragment_id
  match dfe.in_progress_frame with
  | some next_frame =>
    let potential_frame_size := next_frame.fbuilder.size cfg + datagram.encSize
    if potential_frame_size > cfg.maxFrameSize then
      (dfe.flush cfg).push_initial cfg pid p fragment_id persistent
    else if potential_frame_size > dfe.bytes_remaining then
      let dfe := dfe.flush cfg
      ({ dfe with frame_queue := dfe.frame_queue.mark_rate_limited }, some .sizeLimited)
    else
      ({ dfe with
          in_progress_frame := some
            { next_frame with
              fbuilder := next_frame.fbuilder.add datagram
              fragment_refs :=
                if persistent then next_frame.fragment_refs ++ [⟨pid, fragment_id⟩]
                else next_frame.fragment_refs } }, none)
  | none =>
    dfe.push_initial cfg pid p fragment_id persistent

/-- `DataFrameEmitter::total_size` (emit_frame.rs lines 136-138). -/
def DataFrameEmitter.total_size (dfe : DataFrameEmitter) : Nat :=
  dfe.max_send_size - dfe.bytes_remaining

/-- Modelled from the spec: one queued packet of the Packet Sender, carrying
the packet, its sequence id and the `resend` flag its send mode determines;
`emit_packet(flush_id)` yields them in order. -/
structure SenderEntry where
  packet_id : Nat
  packet : PendingPacket
  resend : Bool
deriving Repr, DecidableEq

/-- The mutable queue state `FrameEmitter` drains in `emit_data_frames`:
packet sender, pending queue and resend queue. -/
structure EmitState where
  packet_sender : List SenderEntry
  pending_queue : List PendingEntry
  resend_queue : List ResendEntry
deriving Repr, DecidableEq

/-- Outcome of one embedded loop: `ret` for the early `return` inside the loop
(the datagram's push failed), `fall` for normal fall-through. -/
inductive LoopOut where
  | ret (st : EmitState) (dfe : DataFrameEmitter)
  | fall (st : EmitState) (dfe : DataFrameEmitter)
deriving Repr, DecidableEq

/-- Phase A of `emit_data_frames` (emit_frame.rs lines 170-197): drain the
resend queue.  `env` is the store of live packets; `none` means out of fuel. -/
def phaseA (cfg : Cfg) (env : List (Nat × PendingPacket)) (now_ms rtt_ms : Nat) :
    Nat → EmitState → DataFrameEmitter → Option LoopOut
  | 0, _, _ => none
  | fuel + 1, st, dfe =>
    match st.resend_queue with
    | [] => some (.fall st dfe)
    | entry :: rest =>
      match storeLookup env entry.fragment_ref.packet_id with
      | some packet =>
        if packet.fragment_acknowledged entry.fragment_ref.fragment_id then
          phaseA cfg env now_ms rtt_ms fuel { st with resend_queue := rest } dfe
        else if entry.resend_time > now_ms then
          some (.fall st dfe)
        else
          match dfe.push cfg entry.fragment_ref.packet_id packet entry.fragment_ref.fragment_id true with
          | (dfe', some _) => some (.ret st dfe')
          | (dfe', none) =>
            let newEntry : ResendEntry :=
              ⟨entry.fragment_ref, now_ms + rtt_ms * 2 ^ entry.send_count,
               min (entry.send_count + 1) MAX_SEND_COUNT⟩
            phaseA cfg env now_ms rtt_ms fuel
              { st with resend_queue := resendPush newEntry rest } dfe'
      | none =>
        phaseA cfg env now_ms rtt_ms fuel { st with resend_queue := rest } dfe

/-- The inner `while` of Phase B of `emit_data_frames` (emit_frame.rs lines
215-238): drain the pending queue.  Note the source pops the *resend* queue
(`self.resend_queue.pop()`) when the weak reference is dead or the fragment is
already acknowledged — lines 220 and 235 — which this embedding mirrors. -/
def pendingDrain (cfg : Cfg) (env : List (Nat × PendingPacket)) (now_ms rtt_ms : Nat) :
    Nat → EmitState → DataFrameEmitter → Option LoopOut
  | 0, _, _ => none
  | fuel + 1, st, dfe =>
    match st.pending_queue with
    | [] => some (.fall st dfe)
    | entry :: rest =>
      match storeLookup env entry.fragment_ref.packet_id with
      | some packet =>
        if packet.fragment_acknowledged entry.fragment_ref.fragment_id then
          pendingDrain cfg env now_ms rtt_ms fuel
            { st with resend_queue := st.resend_queue.tail } dfe
        else
          match dfe.push cfg entry.fragment_ref.packet_id packet entry.fragment_ref.fragment_id entry.resend with
          | (dfe', some _) => some (.ret st dfe')
          | (dfe', none) =>
            if entry.resend then
              let newEntry : ResendEntry := ⟨entry.fragment_ref, now_ms + rtt_ms, 1⟩
              pendingDrain cfg env now_ms rtt_ms fuel
                { st with
                  pending_queue := rest
                  resend_queue := resendPush newEntry st.resend_queue } dfe'
            else
              pendingDrain cfg env now_ms rtt_ms fuel { st with pending_queue := rest } dfe'
      | none =>
        pendingDrain cfg env now_ms rtt_ms fuel
          { st with resend_queue := st.resend_queue.tail } dfe

/-- The outer `loop` of Phase B of `emit_data_frames` (emit_frame.rs lines
199-239): refill the pending queue from the Packet Sender when it is empty,
then run the inner drain. -/
def phaseB (cfg : Cfg) (env : List (Nat × PendingPacket)) (now_ms rtt_ms : Nat) :
    Nat → EmitState → DataFrameEmitter → Option LoopOut
  | 0, _, _ => none
  | fuel + 1, st, dfe =>
    if st.pending_queue.isEmpty then
      match st.packet_sender with
      | [] => some (.fall st dfe)
      | se :: sender_rest =>
        let new_entries := (List.range (se.packet.last_fragment_id + 1)).map
          (fun i => PendingEntry.mk ⟨se.packet_id, i⟩ se.resend)
        let st' : EmitState :=
          { st with packet_sender := sender_rest, pending_queue := st.pending_queue ++ new_entries }
        match pendingDrain cfg env now_ms rtt_ms fuel st' dfe with
        | none => none
        | some (.ret st'' dfe'') => some (.ret st'' dfe'')
        | some (.fall st'' dfe'') => phaseB cfg env now_ms rtt_ms fuel st'' dfe''
    else
      match pendingDrain cfg env now_ms rtt_ms fuel st dfe with
      | none => none
      | some (.ret st'' dfe'') => some (.ret st'' dfe'')
      | some (.fall st'' dfe'') => phaseB cfg env now_ms rtt_ms fuel st'' dfe''

/-- `FrameEmitter::emit_data_frames` (emit_frame.rs lines 167-243): Phase A,
then Phase B, then a final flush.  Returns the byte count, the final emitter
(carrying the emitted frames and the frame queue) and the final queue state;
`none` when the fuel ran out (the loops of the source need not terminate). -/
def emit_data_frames (cfg : Cfg) (env : List (Nat × PendingPacket)) (fq : FrameQueue)
    (nonces : List Bool) (now_ms rtt_ms max_send_size : Nat) (fuel : Nat) (st : EmitState) :
    Option (Nat × DataFrameEmitter × EmitState) :=
  let dfe := DataFrameEmitter.new now_ms fq max_send_size nonces
  match phaseA cfg env now_ms rtt_ms fuel st dfe with
  | none => none
  | some (.ret st' dfe') => some (dfe'.total_size, dfe', st')
  | some (.fall st' dfe') =>
    match phaseB cfg env now_ms rtt_ms fuel st' dfe' with
    | none => none
    | some (.ret st'' dfe'') => some (dfe''.total_size, dfe'', st'')
    | some (.fall st2 dfe2) =>
      let dfe3 := dfe2.flush cfg
      some (dfe3.total_size, dfe3, st2)

/-- Modelled from the spec: a frame-ack descriptor of the Frame-Ack Queue.
Only its encoded size matters for packing; `ident` stands for its content
(base id, bitfield, nonce) so distinct descriptors stay distinct. -/
structure FrameAck where
  ident : Nat
  encSize : Nat
deriving Repr, DecidableEq

/-- Modelled from the spec: an ack-frame builder started with the two window
base ids. -/
structure AckFrameBuilder where
  frame_window_base_id : Nat
  packet_window_base_id : Nat
  acks : List FrameAck
deriving Repr, DecidableEq

/-- `AckFrameBuilder::new`. -/
def AckFrameBuilder.new (fw pw : Nat) : AckFrameBuilder := ⟨fw, pw, []⟩

/-- `AckFrameBuilder::size`: the empty-builder size plus the encoded sizes of
the added descriptors. -/
def AckFrameBuilder.size (cfg : Cfg) (b : AckFrameBuilder) : Nat :=
  cfg.ackFrameBaseSize + (b.acks.map (·.encSize)).sum

/-- `AckFrameBuilder::count`. -/
def AckFrameBuilder.count (b : AckFrameBuilder) : Nat := b.acks.length

/-- `AckFrameBuilder::add`. -/
def AckFrameBuilder.add (b : AckFrameBuilder) (a : FrameAck) : AckFrameBuilder :=
  { b with acks := b.acks ++ [a] }

/-- One ack frame handed to the emit callback. -/
structure AckFrame where
  len : Nat
  frame_window_base_id : Nat
  packet_window_base_id : Nat
  acks : List FrameAck
deriving Repr, DecidableEq

/-- `AckFrameBuilder::build`. -/
def AckFrameBuilder.build (cfg : Cfg) (b : AckFrameBuilder) : AckFrame :=
  ⟨b.size cfg, b.frame_window_base_id, b.packet_window_base_id, b.acks⟩

/-- The `while let Some(frame_ack) = self.frame_ack_queue.peek()` loop of
`FrameEmitter::emit_ack_frames` (emit_frame.rs lines 280-315), followed by the
trailing conditional emit (lines 311-317).  State: remaining queue, builder,
`bytes_remaining`, `frame_sent`, frames emitted so far.  Returns the byte
count, the emitted frames and the remaining queue. -/
def ackLoop (cfg : Cfg) (fw pw max_send_size : Nat) (min_one : Bool) :
    Nat → List FrameAck → AckFrameBuilder → Nat → Bool → List AckFrame →
    Option (Nat × List AckFrame × List FrameAck)
  | 0, _, _, _, _, _ => none
  | fuel + 1, faq, fbuilder, bytes_remaining, frame_sent, out =>
    match faq with
    | [] =>
      if fbuilder.count > 0 || (min_one && !frame_sent) then
        some (max_send_size - (bytes_remaining - fbuilder.size cfg),
              out ++ [fbuilder.build cfg], [])
      else
        some (max_send_size - bytes_remaining, out, [])
    | frame_ack :: rest =>
      let potential_frame_size := fbuilder.size cfg + frame_ack.encSize
      if potential_frame_size > bytes_remaining then
        if fbuilder.count > 0 || (min_one && !frame_sent) then
          some (max_send_size - (bytes_remaining - fbuilder.size cfg),
                out ++ [fbuilder.build cfg], frame_ack :: rest)
        else
          some (max_send_size - bytes_remaining, out, frame_ack :: rest)
      else if potential_frame_size > cfg.maxFrameSize then
        ackLoop cfg fw pw max_send_size min_one fuel (frame_ack :: rest)
          (AckFrameBuilder.new fw pw) (bytes_remaining - fbuilder.size cfg) true
          (out ++ [fbuilder.build cfg])
      else
        ackLoop cfg fw pw max_send_size min_one fuel rest
          (fbuilder.add frame_ack) bytes_remaining frame_sent out

/-- `FrameEmitter::emit_ack_frames` (emit_frame.rs lines 264-318). -/
def emit_ack_frames (cfg : Cfg) (frame_window_base_id packet_window_base_id : Nat)
    (max_send_size : Nat) (min_one : Bool) (fuel : Nat) (faq : List FrameAck) :
    Option (Nat × List AckFrame × List FrameAck) :=
  let fbuilder := AckFrameBuilder.new frame_window_base_id packet_window_base_id
  if fbuilder.size cfg > max_send_size then
    some (0, [], faq)
  else
    ackLoop cfg frame_window_base_id packet_window_base_id max_send_size min_one
      fuel faq fbuilder max_send_size false []

/-- A serialised sync frame: the two optional advisories. -/
structure SyncFrame where
  next_frame_id : Option Nat
  next_packet_id : Option Nat
deriving Repr, DecidableEq

/-- `FrameEmitter::emit_sync_frame` (emit_frame.rs lines 245-262): the byte
count returned and the frames handed to the callback. -/
def emit_sync_frame (cfg : Cfg) (next_frame_id next_packet_id : Option Nat)
    (max_send_size : Nat) : Nat × List SyncFrame :=
  if cfg.syncFrameSize > max_send_size then
    (0, [])
  else
    (cfg.syncFrameSize, [⟨next_frame_id, next_packet_id⟩])

/-! ## Derived notions used by the theorem statements -/

/-- A fragment reference is live (its weak reference upgrades) and its
fragment is not yet acknowledged. -/
def liveUnacked (env : List (Nat × PendingPacket)) (fr : FragmentRef) : Bool :=
  match storeLookup env fr.packet_id with
  | some p => ! p.fragment_acknowledged fr.fragment_id
  | none => false

/-- The datagram a fragment reference resolves to in the store. -/
def datagramOf (env : List (Nat × PendingPacket)) (fr : FragmentRef) : Datagram :=
  match storeLookup env fr.packet_id with
  | some p => p.datagram fr.packet_id fr.fragment_id
  | none => ⟨fr.packet_id, fr.fragment_id, 0⟩

/-- The fragment references Phase A pushes, in drain order: walk the
time-sorted resend queue, push live-unacked entries, skip dead or acknowledged
ones, and stop at the first entry scheduled after `now_ms`. -/
def resendDrainRefs (env : List (Nat × PendingPacket)) (now_ms : Nat) :
    List ResendEntry → List FragmentRef
  | [] => []
  | e :: rest =>
    if e.resend_time ≤ now_ms then
      if liveUnacked env e.fragment_ref then
        e.fragment_ref :: resendDrainRefs env now_ms rest
      else resendDrainRefs env now_ms rest
    else []

/-- The fragment references of the pending queue, in FIFO order. -/
def pendingRefs (st : EmitState) : List FragmentRef :=
  st.pending_queue.map (·.fragment_ref)

/-- The fragment references the Packet Sender will contribute, packet by
packet, each packet's fragments in ascending fragment-id order. -/
def senderRefs (st : EmitState) : List FragmentRef :=
  (st.packet_sender.map (fun se =>
    (List.range (se.packet.last_fragment_id + 1)).map
      (fun i => FragmentRef.mk se.packet_id i))).flatten

/-- All datagrams the emitter has accepted so far, in push order: the emitted
frames' datagrams followed by the in-progress frame's. -/
def allDatagrams (dfe : DataFrameEmitter) : List Datagram :=
  (dfe.emitted.map (·.datagrams)).flatten ++
  (match dfe.in_progress_frame with
   | some nf => nf.fbuilder.datagrams
   | none => [])

/-- The datagrams of the frames actually handed to the callback, in order. -/
def emittedJoin (dfe : DataFrameEmitter) : List Datagram :=
  (dfe.emitted.map (·.datagrams)).flatten

/-- Total length of the frames handed to the callback. -/
def sumEmitted (dfe : DataFrameEmitter) : Nat :=
  (dfe.emitted.map (·.len)).sum

/-- `l₁` is a prefix of `l₂`. -/
def prefixOf (l₁ l₂ : List α) : Prop := ∃ t, l₁ ++ t = l₂

/-- The schedule of a `Resend`-mode fragment first sent at `t0`: entry `n` is
the `(resend_time, send_count)` of its `n`-th scheduled retransmission.  The
base case is the entry pushed by the pending drain (emit_frame.rs line 232)
and the step is the entry pushed by the resend drain (lines 190-192). -/
def resendSchedule (t0 rtt : Nat) : Nat → Nat × Nat
  | 0 => (t0 + rtt, 1)
  | n + 1 =>
    let s := resendSchedule t0 rtt n
    (s.1 + rtt * 2 ^ s.2, min (s.2 + 1) MAX_SEND_COUNT)

/-- The emitter carried by a loop outcome. -/
def LoopOut.dfeOf : LoopOut → DataFrameEmitter
  | .ret _ d => d
  | .fall _ d => d

/-- The queue state carried by a loop outcome. -/
def LoopOut.stOf : LoopOut → EmitState
  | .ret s _ => s
  | .fall s _ => s

/-- Accounting invariant of the data-frame emitter: emitted bytes plus the
remaining budget equal the budget, and the in-progress frame fits in the
remaining budget, so the subtraction in `flush` cannot underflow. -/
def dfeWf (cfg : Cfg) (dfe : DataFrameEmitter) : Prop :=
  sumEmitted dfe + dfe.bytes_remaining = dfe.max_send_size ∧
  ∀ nf, dfe.in_progress_frame = some nf →
    DataFrameBuilder.size cfg nf.fbuilder ≤ dfe.bytes_remaining

/-- Every pushed datagram, resolved through the store of live packets, fits in
a frame together with the frame overhead (the source's
`debug_assert!(potential_frame_size <= MAX_FRAME_SIZE)`). -/
def fitsEnv (cfg : Cfg) (env : List (Nat × PendingPacket)) : Prop :=
  ∀ pid p, storeLookup env pid = some p →
    ∀ i, cfg.dataFrameOverhead + (p.datagram pid i).encSize ≤ cfg.maxFrameSize

/-- No emitted frame, and no in-progress frame, exceeds `MAX_FRAME_SIZE`. -/
def framesFit (cfg : Cfg) (dfe : DataFrameEmitter) : Prop :=
  (∀ f ∈ dfe.emitted, f.len ≤ cfg.maxFrameSize) ∧
  ∀ nf, dfe.in_progress_frame = some nf →
    DataFrameBuilder.size cfg nf.fbuilder ≤ cfg.maxFrameSize

/-- The Packet Sender's queue is consistent with the store of live packets:
each queued packet is alive under its id and not yet acknowledged anywhere. -/
def senderOk (env : List (Nat × PendingPacket)) (st : EmitState) : Prop :=
  ∀ se ∈ st.packet_sender, storeLookup env se.packet_id = some se.packet ∧
    ∀ i, se.packet.fragment_acknowledged i = false

/-! ## Concrete inputs used by the witnesses -/

/-- A small concrete wire configuration for witnesses: frame limit 30,
data-frame overhead 7, empty ack-frame size 9, sync-frame size 9. -/
def cfgW : Cfg := ⟨30, 7, 9, 9⟩

/-- A one-fragment packet (datagram encodes to 10 bytes), unacknowledged. -/
def pW0 : PendingPacket := ⟨[⟨false, 10⟩]⟩

/-- A two-fragment packet (each datagram encodes to 8 bytes). -/
def pW1 : PendingPacket := ⟨[⟨false, 8⟩, ⟨false, 8⟩]⟩

/-- A one-fragment packet whose only fragment is already acknowledged. -/
def pAcked : PendingPacket := ⟨[⟨true, 10⟩]⟩

/-- Store of live packets for witnesses: packets 0 and 1 live. -/
def envW : List (Nat × PendingPacket) := [(0, pW0), (1, pW1)]

/-- Store for the C1 counter-scenario: packet 0 live but acknowledged,
packet 1 live and unacknowledged. -/
def envAck : List (Nat × PendingPacket) := [(0, pAcked), (1, pW0)]

/-- An empty frame queue with window 16 for witnesses. -/
def fqW : FrameQueue := ⟨0, 16, [], false⟩

/-! ## Helper lemmas -/

theorem prefixOf_refl (l : List α) : prefixOf l l := ⟨[], List.append_nil l⟩

theorem prefixOf_nil (l : List α) : prefixOf [] l := ⟨l, rfl⟩

theorem prefixOf_trans {l₁ l₂ l₃ : List α} (h₁ : prefixOf l₁ l₂) (h₂ : prefixOf l₂ l₃) :
    prefixOf l₁ l₃ := by
  obtain ⟨t₁, ht₁⟩ := h₁
  obtain ⟨t₂, ht₂⟩ := h₂
  exact ⟨t₁ ++ t₂, by rw [← List.append_assoc, ht₁, ht₂]⟩

theorem prefixOf_map {l₁ l₂ : List α} (f : α → β) (h : prefixOf l₁ l₂) :
    prefixOf (l₁.map f) (l₂.map f) := by
  obtain ⟨t, ht⟩ := h
  exact ⟨t.map f, by rw [← List.map_append, ht]⟩

theorem prefixOf_cons {l₁ l₂ : List α} (x : α) (h : prefixOf l₁ l₂) :
    prefixOf (x :: l₁) (x :: l₂) := by
  obtain ⟨t, ht⟩ := h
  exact ⟨t, by simp [ht]⟩

theorem prefixOf_append_right {l₁ l₂ : List α} (l₃ : List α) (h : prefixOf l₁ l₂) :
    prefixOf l₁ (l₂ ++ l₃) := by
  obtain ⟨t, ht⟩ := h
  exact ⟨t ++ l₃, by rw [← List.append_assoc, ht]⟩

theorem prefixOf_append_left {l₁ l₂ : List α} (a : List α) (h : prefixOf l₁ l₂) :
    prefixOf (a ++ l₁) (a ++ l₂) := by
  obtain ⟨t, ht⟩ := h
  exact ⟨t, by rw [List.append_assoc, ht]⟩

theorem liveUnacked_iff {env : List (Nat × PendingPacket)} {fr : FragmentRef} :
    liveUnacked env fr = true ↔
      ∃ p, storeLookup env fr.packet_id = some p ∧
        p.fragment_acknowledged fr.fragment_id = false := by
  unfold liveUnacked
  cases h : storeLookup env fr.packet_id with
  | none => simp [h]
  | some p => simp [h]

theorem sortedByTime_tail {e : ResendEntry} {rest : List ResendEntry}
    (h : sortedByTime (e :: rest) = true) : sortedByTime rest = true := by
  cases rest with
  | nil => rfl
  | cons b bs =>
    unfold sortedByTime at h
    simp only [Bool.and_eq_true] at h
    exact h.2

theorem sortedByTime_head {e b : ResendEntry} {bs : List ResendEntry}
    (h : sortedByTime (e :: b :: bs) = true) : e.resend_time ≤ b.resend_time := by
  unfold sortedByTime at h
  simp only [Bool.and_eq_true, decide_eq_true_eq] at h
  exact h.1

theorem resendPush_sorted {q : List ResendEntry} (e : ResendEntry)
    (h : sortedByTime q = true) : sortedByTime (resendPush e q) = true := by
  induction q with
  | nil => rfl
  | cons x xs ih =>
    unfold resendPush
    by_cases hx : e.resend_time < x.resend_time
    · simp only [if_pos hx]
      unfold sortedByTime
      simp [Nat.le_of_lt hx, h]
    · simp only [if_neg hx]
      have hxs := ih (sortedByTime_tail h)
      cases xs with
      | nil =>
        show sortedByTime [x, e] = true
        simp [sortedByTime, Nat.le_of_not_lt hx]
      | cons y ys =>
        have hxy : x.resend_time ≤ y.resend_time := sortedByTime_head h
        unfold resendPush
        by_cases hy : e.resend_time < y.resend_time
        · simp only [if_pos hy] at hxs ⊢
          unfold sortedByTime
          simp only [Bool.and_eq_true, decide_eq_true_eq]
          exact ⟨Nat.le_of_not_lt hx, by unfold resendPush at hxs; simp [if_pos hy] at hxs ⊢; exact hxs⟩
        · simp only [if_neg hy] at hxs ⊢
          unfold sortedByTime
          simp only [Bool.and_eq_true, decide_eq_true_eq]
          refine ⟨hxy, ?_⟩
          unfold resendPush at hxs
          simp only [if_neg hy] at hxs
          exact hxs

theorem resendDrainRefs_stop {env : List (Nat × PendingPacket)} {now_ms : Nat}
    {e : ResendEntry} {rest : List ResendEntry}
    (hs : sortedByTime (e :: rest) = true) (ht : ¬ e.resend_time ≤ now_ms) :
    resendDrainRefs env now_ms rest = [] := by
  cases rest with
  | nil => rfl
  | cons b bs =>
    have hb : e.resend_time ≤ b.resend_time := sortedByTime_head hs
    unfold resendDrainRefs
    rw [if_neg (by omega)]

theorem resendDrainRefs_push_gt {env : List (Nat × PendingPacket)} {now_ms : Nat}
    {e : ResendEntry} (q : List ResendEntry) (ht : ¬ e.resend_time ≤ now_ms) :
    resendDrainRefs env now_ms (resendPush e q) = resendDrainRefs env now_ms q := by
  induction q with
  | nil =>
    unfold resendPush resendDrainRefs
    rw [if_neg ht]
  | cons x xs ih =>
    unfold resendPush
    by_cases hx : e.resend_time < x.resend_time
    · simp only [if_pos hx]
      unfold resendDrainRefs
      rw [if_neg ht, if_neg (by omega)]
    · simp only [if_neg hx]
      unfold resendDrainRefs
      by_cases hxt : x.resend_time ≤ now_ms
      · rw [if_pos hxt, if_pos hxt, ih]
      · rw [if_neg hxt, if_neg hxt]

/-! ### Unfolded forms of the emitter operations -/

theorem flush_eq (cfg : Cfg) (dfe : DataFrameEmitter) :
    dfe.flush cfg =
      match dfe.in_progress_frame with
      | none => dfe
      | some nf =>
        { dfe with
          in_progress_frame := none
          frame_queue := dfe.frame_queue.push (nf.fbuilder.size cfg) dfe.now_ms
            nf.fragment_refs nf.nonce
          bytes_remaining := dfe.bytes_remaining - nf.fbuilder.size cfg
          emitted := dfe.emitted ++
            [⟨nf.fbuilder.size cfg, nf.fbuilder.frame_id, nf.nonce, nf.fbuilder.datagrams⟩] } := rfl

theorem push_initial_eq (cfg : Cfg) (dfe : DataFrameEmitter) (pid : Nat)
    (p : PendingPacket) (i : Nat) (pers : Bool) :
    DataFrameEmitter.push_initial cfg dfe pid p i pers =
      if ¬ dfe.frame_queue.can_push then (dfe, some .windowLimited)
      else if cfg.dataFrameOverhead + (p.datagram pid i).encSize > dfe.bytes_remaining then
        ({ dfe with frame_queue := dfe.frame_queue.mark_rate_limited }, some .sizeLimited)
      else
        ({ dfe with
            in_progress_frame := some
              ⟨dfe.nonces.headD false,
               ⟨dfe.frame_queue.next_id, dfe.nonces.headD false, [p.datagram pid i]⟩,
               if pers then [⟨pid, i⟩] else []⟩
            nonces := dfe.nonces.tail }, none) := rfl

theorem push_eq (cfg : Cfg) (dfe : DataFrameEmitter) (pid : Nat)
    (p : PendingPacket) (i : Nat) (pers : Bool) :
    DataFrameEmitter.push cfg dfe pid p i pers =
      match dfe.in_progress_frame with
      | some nf =>
        if nf.fbuilder.size cfg + (p.datagram pid i).encSize > cfg.maxFrameSize then
          DataFrameEmitter.push_initial cfg (dfe.flush cfg) pid p i pers
        else if nf.fbuilder.size cfg + (p.datagram pid i).encSize > dfe.bytes_remaining then
          ({ dfe.flush cfg with
              frame_queue := (dfe.flush cfg).frame_queue.mark_rate_limited },
           some .sizeLimited)
        else
          ({ dfe with
              in_progress_frame := some
                { nf with
                  fbuilder := nf.fbuilder.add (p.datagram pid i)
                  fragment_refs :=
                    if pers then nf.fragment_refs ++ [⟨pid, i⟩] else nf.fragment_refs } },
           none)
      | none => DataFrameEmitter.push_initial cfg dfe pid p i pers := rfl

theorem size_add (cfg : Cfg) (b : DataFrameBuilder) (d : Datagram) :
    DataFrameBuilder.size cfg (b.add d) = DataFrameBuilder.size cfg b + d.encSize := by
  simp [DataFrameBuilder.size, DataFrameBuilder.add]
  omega

/-! ### The accounting invariant (claim C3) -/

theorem dfeWf_new (cfg : Cfg) (now : Nat) (fq : FrameQueue) (max_send : Nat)
    (nonces : List Bool) : dfeWf cfg (DataFrameEmitter.new now fq max_send nonces) := by
  refine ⟨by simp [DataFrameEmitter.new, sumEmitted], fun nf h => ?_⟩
  simp [DataFrameEmitter.new] at h

theorem dfeWf_flush {cfg : Cfg} {dfe : DataFrameEmitter} (h : dfeWf cfg dfe) :
    dfeWf cfg (dfe.flush cfg) := by
  obtain ⟨h1, h2⟩ := h
  rw [flush_eq]
  cases hip : dfe.in_progress_frame with
  | none => exact ⟨h1, h2⟩
  | some nf =>
    have hle := h2 nf hip
    refine ⟨?_, fun nf' h' => by simp at h'⟩
    simp only [sumEmitted, List.map_append, List.sum_append, List.map_cons, List.map_nil,
      List.sum_cons, List.sum_nil]
    simp only [sumEmitted] at h1
    omega

theorem dfeWf_push_initial {cfg : Cfg} {dfe : DataFrameEmitter}
    (pid : Nat) (p : PendingPacket) (i : Nat) (pers : Bool) (h : dfeWf cfg dfe) :
    dfeWf cfg (DataFrameEmitter.push_initial cfg dfe pid p i pers).1 := by
  obtain ⟨h1, h2⟩ := h
  rw [push_initial_eq]
  split
  · exact ⟨h1, h2⟩
  · split
    next hgt => exact ⟨h1, h2⟩
    next hle =>
      refine ⟨h1, fun nf' h' => ?_⟩
      simp only [Option.some.injEq] at h'
      subst h'
      simp only [DataFrameBuilder.size, List.map_cons, List.map_nil, List.sum_cons, List.sum_nil]
      omega

theorem dfeWf_push {cfg : Cfg} {dfe : DataFrameEmitter}
    (pid : Nat) (p : PendingPacket) (i : Nat) (pers : Bool) (h : dfeWf cfg dfe) :
    dfeWf cfg (DataFrameEmitter.push cfg dfe pid p i pers).1 := by
  rw [push_eq]
  split
  next nf hip =>
    split
    next hA => exact dfeWf_push_initial pid p i pers (dfeWf_flush h)
    next hA =>
      split
      next hB => exact ⟨(dfeWf_flush h).1, (dfeWf_flush h).2⟩
      next hB =>
        refine ⟨h.1, fun nf' h' => ?_⟩
        simp only [Option.some.injEq] at h'
        subst h'
        show DataFrameBuilder.size cfg (nf.fbuilder.add (p.datagram pid i)) ≤ dfe.bytes_remaining
        rw [size_add]
        omega
  next hip => exact dfeWf_push_initial pid p i pers h

theorem max_send_size_flush (cfg : Cfg) (dfe : DataFrameEmitter) :
    (dfe.flush cfg).max_send_size = dfe.max_send_size := by
  rw [flush_eq]
  cases dfe.in_progress_frame <;> rfl

theorem max_send_size_push_initial (cfg : Cfg) (dfe : DataFrameEmitter)
    (pid : Nat) (p : PendingPacket) (i : Nat) (pers : Bool) :
    (DataFrameEmitter.push_initial cfg dfe pid p i pers).1.max_send_size = dfe.max_send_size := by
  rw [push_initial_eq]
  split
  · rfl
  · split <;> rfl

theorem max_send_size_push (cfg : Cfg) (dfe : DataFrameEmitter)
    (pid : Nat) (p : PendingPacket) (i : Nat) (pers : Bool) :
    (DataFrameEmitter.push cfg dfe pid p i pers).1.max_send_size = dfe.max_send_size := by
  rw [push_eq]
  split
  next nf hip =>
    split
    next hA => rw [max_send_size_push_initial, max_send_size_flush]
    next hA =>
      split
      next hB =>
        show (dfe.flush cfg).max_send_size = dfe.max_send_size
        exact max_send_size_flush cfg dfe
      next hB => rfl
  next hip => exact max_send_size_push_initial cfg dfe pid p i pers

/-! ### The frame-size invariant (claim C4) -/

theorem framesFit_new (cfg : Cfg) (now : Nat) (fq : FrameQueue) (max_send : Nat)
    (nonces : List Bool) : framesFit cfg (DataFrameEmitter.new now fq max_send nonces) := by
  refine ⟨fun f hf => ?_, fun nf h => ?_⟩
  · simp [DataFrameEmitter.new] at hf
  · simp [DataFrameEmitter.new] at h

theorem framesFit_flush {cfg : Cfg} {dfe : DataFrameEmitter} (h : framesFit cfg dfe) :
    framesFit cfg (dfe.flush cfg) := by
  obtain ⟨h1, h2⟩ := h
  rw [flush_eq]
  cases hip : dfe.in_progress_frame with
  | none => exact ⟨h1, h2⟩
  | some nf =>
    refine ⟨fun f hf => ?_, fun nf' h' => by simp at h'⟩
    simp only [List.mem_append, List.mem_singleton] at hf
    rcases hf with hf | rfl
    · exact h1 f hf
    · exact h2 nf hip

theorem framesFit_push_initial {cfg : Cfg} {dfe : DataFrameEmitter}
    {pid : Nat} {p : PendingPacket} {i : Nat} (pers : Bool)
    (hfit : cfg.dataFrameOverhead + (p.datagram pid i).encSize ≤ cfg.maxFrameSize)
    (h : framesFit cfg dfe) :
    framesFit cfg (DataFrameEmitter.push_initial cfg dfe pid p i pers).1 := by
  obtain ⟨h1, h2⟩ := h
  rw [push_initial_eq]
  split
  · exact ⟨h1, h2⟩
  · split
    next hgt => exact ⟨h1, h2⟩
    next hle =>
      refine ⟨h1, fun nf' h' => ?_⟩
      simp only [Option.some.injEq] at h'
      subst h'
      simp only [DataFrameBuilder.size, List.map_cons, List.map_nil, List.sum_cons, List.sum_nil]
      omega

theorem framesFit_push {cfg : Cfg} {dfe : DataFrameEmitter}
    {pid : Nat} {p : PendingPacket} {i : Nat} (pers : Bool)
    (hfit : cfg.dataFrameOverhead + (p.datagram pid i).encSize ≤ cfg.maxFrameSize)
    (h : framesFit cfg dfe) :
    framesFit cfg (DataFrameEmitter.push cfg dfe pid p i pers).1 := by
  rw [push_eq]
  split
  next nf hip =>
    split
    next hA => exact framesFit_push_initial pers hfit (framesFit_flush h)
    next hA =>
      split
      next hB => exact ⟨(framesFit_flush h).1, (framesFit_flush h).2⟩
      next hB =>
        refine ⟨h.1, fun nf' h' => ?_⟩
        simp only [Option.some.injEq] at h'
        subst h'
        rw [size_add]
        omega
  next hip => exact framesFit_push_initial pers hfit h

/-! ### Datagram-order lemmas (claim C5) -/

theorem flush_in_progress (cfg : Cfg) (dfe : DataFrameEmitter) :
    (dfe.flush cfg).in_progress_frame = none := by
  rw [flush_eq]
  split
  next hip => exact hip
  next nf hip => rfl

theorem flush_emitted_some {cfg : Cfg} {dfe : DataFrameEmitter} {nf : InProgressDataFrame}
    (hip : dfe.in_progress_frame = some nf) :
    (dfe.flush cfg).emitted = dfe.emitted ++
      [⟨nf.fbuilder.size cfg, nf.fbuilder.frame_id, nf.nonce, nf.fbuilder.datagrams⟩] := by
  rw [flush_eq, hip]

theorem allDatagrams_new (now : Nat) (fq : FrameQueue) (max_send : Nat) (nonces : List Bool) :
    allDatagrams (DataFrameEmitter.new now fq max_send nonces) = [] := rfl

theorem allDatagrams_flush (cfg : Cfg) (dfe : DataFrameEmitter) :
    allDatagrams (dfe.flush cfg) = allDatagrams dfe := by
  rw [flush_eq]
  split
  next hip => rfl
  next nf hip => simp [allDatagrams, hip]

theorem emittedJoin_flush (cfg : Cfg) (dfe : DataFrameEmitter) :
    emittedJoin (dfe.flush cfg) = allDatagrams dfe := by
  rw [flush_eq]
  split
  next hip => simp [allDatagrams, emittedJoin, hip]
  next nf hip => simp [allDatagrams, emittedJoin, hip]

theorem emittedJoin_prefixOf_allDatagrams (dfe : DataFrameEmitter) :
    prefixOf (emittedJoin dfe) (allDatagrams dfe) :=
  ⟨_, rfl⟩

theorem allDatagrams_push_initial {cfg : Cfg} {dfe : DataFrameEmitter}
    {pid : Nat} {p : PendingPacket} {i : Nat} {pers : Bool}
    {dfe' : DataFrameEmitter} {res : Option EmitError}
    (hip : dfe.in_progress_frame = none)
    (hp : DataFrameEmitter.push_initial cfg dfe pid p i pers = (dfe', res)) :
    (res = none → allDatagrams dfe' = allDatagrams dfe ++ [p.datagram pid i]) ∧
    (res ≠ none → allDatagrams dfe' = allDatagrams dfe) := by
  rw [push_initial_eq] at hp
  split at hp
  · cases hp
    exact ⟨fun hr => Option.noConfusion hr, fun _ => rfl⟩
  · split at hp
    next hgt =>
      cases hp
      exact ⟨fun hr => Option.noConfusion hr, fun _ => rfl⟩
    next hle =>
      cases hp
      refine ⟨fun _ => ?_, fun hr => absurd rfl hr⟩
      simp [allDatagrams, hip]

theorem allDatagrams_push {cfg : Cfg} {dfe : DataFrameEmitter}
    {pid : Nat} {p : PendingPacket} {i : Nat} {pers : Bool}
    {dfe' : DataFrameEmitter} {res : Option EmitError}
    (hp : DataFrameEmitter.push cfg dfe pid p i pers = (dfe', res)) :
    (res = none → allDatagrams dfe' = allDatagrams dfe ++ [p.datagram pid i]) ∧
    (res ≠ none → allDatagrams dfe' = allDatagrams dfe) := by
  rw [push_eq] at hp
  split at hp
  next nf hip =>
    split at hp
    next hA =>
      have h2 := allDatagrams_push_initial (flush_in_progress cfg dfe) hp
      rw [allDatagrams_flush] at h2
      exact h2
    next hA =>
      split at hp
      next hB =>
        cases hp
        refine ⟨fun hr => Option.noConfusion hr, fun _ => ?_⟩
        show allDatagrams (dfe.flush cfg) = allDatagrams dfe
        exact allDatagrams_flush cfg dfe
      next hB =>
        cases hp
        refine ⟨fun _ => ?_, fun hr => absurd rfl hr⟩
        simp [allDatagrams, hip, DataFrameBuilder.add]
  next hip =>
    exact allDatagrams_push_initial hip hp

/-! ### Error-path lemmas (claim C6) -/

theorem push_initial_sizeLimited {cfg : Cfg} {dfe : DataFrameEmitter}
    {pid : Nat} {p : PendingPacket} {i : Nat} {pers : Bool} {dfe' : DataFrameEmitter}
    (hp : DataFrameEmitter.push_initial cfg dfe pid p i pers = (dfe', some .sizeLimited)) :
    dfe' = { dfe with frame_queue := dfe.frame_queue.mark_rate_limited } := by
  rw [push_initial_eq] at hp
  split at hp
  · simp at hp
  · split at hp
    next hgt =>
      injection hp with h1 h2
      exact h1.symm
    next hle => simp at hp

/-- Whenever `push` fails with `SizeLimited`: the in-progress frame is gone,
the frame queue is marked rate-limited, and if an in-progress frame existed it
was flushed to the callback first. -/
theorem push_sizeLimited {cfg : Cfg} {dfe : DataFrameEmitter}
    {pid : Nat} {p : PendingPacket} {i : Nat} {pers : Bool} {dfe' : DataFrameEmitter}
    (hp : DataFrameEmitter.push cfg dfe pid p i pers = (dfe', some .sizeLimited)) :
    dfe'.in_progress_frame = none ∧ dfe'.frame_queue.rate_limited = true ∧
    ∀ nf, dfe.in_progress_frame = some nf →
      dfe'.emitted = dfe.emitted ++
        [⟨nf.fbuilder.size cfg, nf.fbuilder.frame_id, nf.nonce, nf.fbuilder.datagrams⟩] := by
  rw [push_eq] at hp
  split at hp
  next nf hip =>
    split at hp
    next hA =>
      have he := push_initial_sizeLimited hp
      subst he
      refine ⟨flush_in_progress cfg dfe, rfl, fun nf' hip' => ?_⟩
      rw [hip] at hip'
      cases hip'
      exact flush_emitted_some hip
    next hA =>
      split at hp
      next hB =>
        injection hp with h1 h2
        subst h1
        refine ⟨flush_in_progress cfg dfe, rfl, fun nf' hip' => ?_⟩
        rw [hip] at hip'
        cases hip'
        exact flush_emitted_some hip
      next hB => simp at hp
  next hip =>
    have he := push_initial_sizeLimited hp
    subst he
    refine ⟨hip, rfl, fun nf' hip' => ?_⟩
    rw [hip] at hip'
    cases hip'

/-! ### Generic preservation through the emission phases -/

theorem phaseA_preserves (cfg : Cfg) (env : List (Nat × PendingPacket)) (now_ms rtt_ms : Nat)
    (P : DataFrameEmitter → Prop)
    (hpush : ∀ dfe pid p i pers, storeLookup env pid = some p → P dfe →
      P (DataFrameEmitter.push cfg dfe pid p i pers).1) :
    ∀ fuel st dfe out, P dfe → phaseA cfg env now_ms rtt_ms fuel st dfe = some out →
      P out.dfeOf := by
  intro fuel
  induction fuel with
  | zero => intro st dfe out hP h; simp [phaseA] at h
  | succ n ih =>
    intro st dfe out hP h
    simp only [phaseA] at h
    split at h
    next hq =>
      cases h
      exact hP
    next entry rest hq =>
      split at h
      next packet hl =>
        split at h
        next hack => exact ih _ _ _ hP h
        next hack =>
          split at h
          next htime =>
            cases h
            exact hP
          next htime =>
            split at h
            next dfe' e hp =>
              cases h
              show P dfe'
              have := hpush dfe entry.fragment_ref.packet_id packet
                entry.fragment_ref.fragment_id true hl hP
              rw [hp] at this
              exact this
            next dfe' hp =>
              refine ih _ _ _ ?_ h
              have := hpush dfe entry.fragment_ref.packet_id packet
                entry.fragment_ref.fragment_id true hl hP
              rw [hp] at this
              exact this
      next hl => exact ih _ _ _ hP h

theorem pendingDrain_preserves (cfg : Cfg) (env : List (Nat × PendingPacket))
    (now_ms rtt_ms : Nat) (P : DataFrameEmitter → Prop)
    (hpush : ∀ dfe pid p i pers, storeLookup env pid = some p → P dfe →
      P (DataFrameEmitter.push cfg dfe pid p i pers).1) :
    ∀ fuel st dfe out, P dfe → pendingDrain cfg env now_ms rtt_ms fuel st dfe = some out →
      P out.dfeOf := by
  intro fuel
  induction fuel with
  | zero => intro st dfe out hP h; simp [pendingDrain] at h
  | succ n ih =>
    intro st dfe out hP h
    simp only [pendingDrain] at h
    split at h
    next hq =>
      cases h
      exact hP
    next entry rest hq =>
      split at h
      next packet hl =>
        split at h
        next hack => exact ih _ _ _ hP h
        next hack =>
          split at h
          next dfe' e hp =>
            cases h
            show P dfe'
            have := hpush dfe entry.fragment_ref.packet_id packet
              entry.fragment_ref.fragment_id entry.resend hl hP
            rw [hp] at this
            exact this
          next dfe' hp =>
            have hP' : P dfe' := by
              have := hpush dfe entry.fragment_ref.packet_id packet
                entry.fragment_ref.fragment_id entry.resend hl hP
              rw [hp] at this
              exact this
            split at h
            · exact ih _ _ _ hP' h
            · exact ih _ _ _ hP' h
      next hl => exact ih _ _ _ hP h

theorem phaseB_preserves (cfg : Cfg) (env : List (Nat × PendingPacket))
    (now_ms rtt_ms : Nat) (P : DataFrameEmitter → Prop)
    (hpush : ∀ dfe pid p i pers, storeLookup env pid = some p → P dfe →
      P (DataFrameEmitter.push cfg dfe pid p i pers).1) :
    ∀ fuel st dfe out, P dfe → phaseB cfg env now_ms rtt_ms fuel st dfe = some out →
      P out.dfeOf := by
  intro fuel
  induction fuel with
  | zero => intro st dfe out hP h; simp [phaseB] at h
  | succ n ih =>
    intro st dfe out hP h
    simp only [phaseB] at h
    split at h
    next hemp =>
      split at h
      next hs =>
        cases h
        exact hP
      next se rest hs =>
        split at h
        next hd => exact absurd h (by simp)
        next st'' dfe'' hd =>
          cases h
          exact pendingDrain_preserves cfg env now_ms rtt_ms P hpush _ _ _ _ hP hd
        next st'' dfe'' hd =>
          exact ih _ _ _ (pendingDrain_preserves cfg env now_ms rtt_ms P hpush _ _ _ _ hP hd) h
    next hemp =>
      split at h
      next hd => exact absurd h (by simp)
      next st'' dfe'' hd =>
        cases h
        exact pendingDrain_preserves cfg env now_ms rtt_ms P hpush _ _ _ _ hP hd
      next st'' dfe'' hd =>
        exact ih _ _ _ (pendingDrain_preserves cfg env now_ms rtt_ms P hpush _ _ _ _ hP hd) h

theorem emit_data_frames_preserves (cfg : Cfg) (env : List (Nat × PendingPacket))
    (fq : FrameQueue) (nonces : List Bool) (now_ms rtt_ms max_send : Nat)
    (fuel : Nat) (st : EmitState) (P : DataFrameEmitter → Prop)
    (hpush : ∀ dfe pid p i pers, storeLookup env pid = some p → P dfe →
      P (DataFrameEmitter.push cfg dfe pid p i pers).1)
    (hflush : ∀ dfe, P dfe → P (dfe.flush cfg))
    (hinit : P (DataFrameEmitter.new now_ms fq max_send nonces)) :
    ∀ r, emit_data_frames cfg env fq nonces now_ms rtt_ms max_send fuel st = some r →
      P r.2.1 := by
  intro r h
  simp only [emit_data_frames] at h
  split at h
  next hA => exact absurd h (by simp)
  next st' dfe' hA =>
    cases h
    exact phaseA_preserves cfg env now_ms rtt_ms P hpush _ _ _ _ hinit hA
  next st' dfe' hA =>
    have hP1 : P dfe' :=
      phaseA_preserves cfg env now_ms rtt_ms P hpush _ _ _ _ hinit hA
    split at h
    next hB => exact absurd h (by simp)
    next st'' dfe'' hB =>
      cases h
      exact phaseB_preserves cfg env now_ms rtt_ms P hpush _ _ _ _ hP1 hB
    next st'' dfe'' hB =>
      cases h
      exact hflush _ (phaseB_preserves cfg env now_ms rtt_ms P hpush _ _ _ _ hP1 hB)

/-- The returned byte count is always the final emitter's `total_size`. -/
theorem emit_data_frames_total (cfg : Cfg) (env : List (Nat × PendingPacket))
    (fq : FrameQueue) (nonces : List Bool) (now_ms rtt_ms max_send : Nat)
    (fuel : Nat) (st : EmitState) :
    ∀ r, emit_data_frames cfg env fq nonces now_ms rtt_ms max_send fuel st = some r →
      r.1 = r.2.1.total_size := by
  intro r h
  simp only [emit_data_frames] at h
  split at h
  next hA => exact absurd h (by simp)
  next st' dfe' hA => cases h; rfl
  next st' dfe' hA =>
    split at h
    next hB => exact absurd h (by simp)
    next st'' dfe'' hB => cases h; rfl
    next st'' dfe'' hB => cases h; rfl

/-! ### Ack-frame emission lemmas (claims C3, C7, C8) -/

theorem ack_size_add (cfg : Cfg) (b : AckFrameBuilder) (a : FrameAck) :
    AckFrameBuilder.size cfg (b.add a) = AckFrameBuilder.size cfg b + a.encSize := by
  simp [AckFrameBuilder.size, AckFrameBuilder.add]
  omega

theorem ack_build_len (cfg : Cfg) (b : AckFrameBuilder) :
    (AckFrameBuilder.build cfg b).len = AckFrameBuilder.size cfg b := rfl

/-- Decompose the emit condition `fbuilder.count() > 0 || min_one && !frame_sent`. -/
theorem ack_cond_iff {b : AckFrameBuilder} {min_one sent : Bool} :
    (decide (b.count > 0) || (min_one && !sent)) = true ↔
      b.count > 0 ∨ (min_one = true ∧ sent = false) := by
  simp [Bool.or_eq_true, Bool.and_eq_true, Bool.not_eq_true']

theorem ackLoop_sum (cfg : Cfg) (fw pw max_send : Nat) (min_one : Bool) :
    ∀ fuel faq (b : AckFrameBuilder) rem sent out,
      ((out.map (·.len)).sum + rem = max_send) →
      (b.count > 0 → b.size cfg ≤ rem) →
      (sent = false → b.size cfg ≤ rem) →
      ∀ r, ackLoop cfg fw pw max_send min_one fuel faq b rem sent out = some r →
        r.1 = (r.2.1.map (·.len)).sum ∧ r.1 ≤ max_send := by
  intro fuel
  induction fuel with
  | zero => intro _ _ _ _ _ _ _ _ r h; simp [ackLoop] at h
  | succ n ih =>
    intro faq b rem sent out h1 h2 h3 r h
    simp only [ackLoop] at h
    split at h
    next =>
      split at h
      next hcond =>
        cases h
        have hsize : b.size cfg ≤ rem := by
          rcases ack_cond_iff.mp hcond with hc | ⟨_, hc⟩
          · exact h2 hc
          · exact h3 hc
        refine ⟨?_, by omega⟩
        simp only [List.map_append, List.sum_append, List.map_cons, List.map_nil,
          List.sum_cons, List.sum_nil, ack_build_len]
        omega
      next hcond =>
        cases h
        refine ⟨?_, by omega⟩
        show max_send - rem = (out.map (·.len)).sum
        omega
    next a rest =>
      split at h
      next hpot =>
        split at h
        next hcond =>
          cases h
          have hsize : b.size cfg ≤ rem := by
            rcases ack_cond_iff.mp hcond with hc | ⟨_, hc⟩
            · exact h2 hc
            · exact h3 hc
          refine ⟨?_, by omega⟩
          simp only [List.map_append, List.sum_append, List.map_cons, List.map_nil,
            List.sum_cons, List.sum_nil, ack_build_len]
          omega
        next hcond =>
          cases h
          refine ⟨?_, by omega⟩
          show max_send - rem = (out.map (·.len)).sum
          omega
      next hpot =>
        have hple : b.size cfg + a.encSize ≤ rem := Nat.le_of_not_lt hpot
        split at h
        next hmax =>
          refine ih _ _ _ _ _ ?_ ?_ ?_ r h
          · simp only [List.map_append, List.sum_append, List.map_cons, List.map_nil,
              List.sum_cons, List.sum_nil, ack_build_len]
            omega
          · intro hc
            simp [AckFrameBuilder.new, AckFrameBuilder.count] at hc
          · intro hs
            cases hs
        next hmax =>
          refine ih _ _ _ _ _ h1 ?_ ?_ r h
          · intro _
            rw [ack_size_add]
            exact hple
          · intro hs
            rw [ack_size_add]
            exact hple

theorem ackLoop_popped (cfg : Cfg) (fw pw max_send : Nat) (min_one : Bool) :
    ∀ fuel faq (b : AckFrameBuilder) rem sent out,
      ∀ r, ackLoop cfg fw pw max_send min_one fuel faq b rem sent out = some r →
        (r.2.1.map (·.acks)).flatten ++ r.2.2 = (out.map (·.acks)).flatten ++ b.acks ++ faq := by
  intro fuel
  induction fuel with
  | zero => intro _ _ _ _ _ r h; simp [ackLoop] at h
  | succ n ih =>
    intro faq b rem sent out r h
    simp only [ackLoop] at h
    split at h
    next =>
      split at h
      next hcond =>
        cases h
        simp [AckFrameBuilder.build]
      next hcond =>
        cases h
        have hacks : b.acks = [] := by
          rw [ack_cond_iff] at hcond
          push_neg at hcond
          have := hcond.1
          simp only [AckFrameBuilder.count] at this
          exact List.eq_nil_of_length_eq_zero (by omega)
        simp [hacks]
    next a rest =>
      split at h
      next hpot =>
        split at h
        next hcond =>
          cases h
          simp [AckFrameBuilder.build, List.append_assoc]
        next hcond =>
          cases h
          have hacks : b.acks = [] := by
            rw [ack_cond_iff] at hcond
            push_neg at hcond
            have := hcond.1
            simp only [AckFrameBuilder.count] at this
            exact List.eq_nil_of_length_eq_zero (by omega)
          simp [hacks]
      next hpot =>
        split at h
        next hmax =>
          have := ih _ _ _ _ _ r h
          rw [this]
          simp [AckFrameBuilder.build, AckFrameBuilder.new, List.append_assoc]
        next hmax =>
          have := ih _ _ _ _ _ r h
          rw [this]
          simp [AckFrameBuilder.add, List.append_assoc]

theorem ackLoop_min_one (cfg : Cfg) (fw pw max_send : Nat) :
    ∀ fuel faq (b : AckFrameBuilder) rem sent out,
      (sent = true → out ≠ []) →
      ∀ r, ackLoop cfg fw pw max_send true fuel faq b rem sent out = some r →
        r.2.1 ≠ [] := by
  intro fuel
  induction fuel with
  | zero => intro _ _ _ _ _ _ r h; simp [ackLoop] at h
  | succ n ih =>
    intro faq b rem sent out hsent r h
    simp only [ackLoop] at h
    split at h
    next =>
      split at h
      next hcond =>
        cases h
        simp
      next hcond =>
        cases h
        rw [ack_cond_iff] at hcond
        push_neg at hcond
        rcases hcond.2 rfl with h'
        exact hsent (by simpa using h')
    next a rest =>
      split at h
      next hpot =>
        split at h
        next hcond =>
          cases h
          simp
        next hcond =>
          cases h
          rw [ack_cond_iff] at hcond
          push_neg at hcond
          rcases hcond.2 rfl with h'
          exact hsent (by simpa using h')
      next hpot =>
        split at h
        next hmax =>
          exact ih _ _ _ _ _ (fun _ => by simp) r h
        next hmax =>
          exact ih _ _ _ _ _ hsent r h

/-! ## Claim theorems -/

/-- C3: For every call to `emit_data_frames` and to `emit_ack_frames`, the
returned byte count equals the sum of the lengths of all frame buffers handed
to the callback during that call, and this sum is at most `max_send_size`. -/
theorem claim_C3_bytes_emitted :
    (∀ (cfg : Cfg) (env : List (Nat × PendingPacket)) (fq : FrameQueue) (nonces : List Bool)
       (now_ms rtt_ms max_send fuel : Nat) (st : EmitState) r,
       emit_data_frames cfg env fq nonces now_ms rtt_ms max_send fuel st = some r →
       r.1 = ((r.2.1.emitted.map (·.len)).sum) ∧ r.1 ≤ max_send) ∧
    (∀ (cfg : Cfg) (fw pw max_send : Nat) (min_one : Bool) (fuel : Nat)
       (faq : List FrameAck) r,
       emit_ack_frames cfg fw pw max_send min_one fuel faq = some r →
       r.1 = ((r.2.1.map (·.len)).sum) ∧ r.1 ≤ max_send) := by
  constructor
  · intro cfg env fq nonces now_ms rtt_ms max_send fuel st r h
    have hP := emit_data_frames_preserves cfg env fq nonces now_ms rtt_ms max_send fuel st
      (fun dfe => dfeWf cfg dfe ∧ dfe.max_send_size = max_send)
      (fun dfe pid p i pers _ hP =>
        ⟨dfeWf_push pid p i pers hP.1, by rw [max_send_size_push]; exact hP.2⟩)
      (fun dfe hP => ⟨dfeWf_flush hP.1, by rw [max_send_size_flush]; exact hP.2⟩)
      ⟨dfeWf_new cfg now_ms fq max_send nonces, rfl⟩ r h
    have ht := emit_data_frames_total cfg env fq nonces now_ms rtt_ms max_send fuel st r h
    obtain ⟨⟨hw1, _⟩, hm⟩ := hP
    rw [ht]
    unfold DataFrameEmitter.total_size
    unfold sumEmitted at hw1
    exact ⟨by omega, by omega⟩
  · intro cfg fw pw max_send min_one fuel faq r h
    simp only [emit_ack_frames] at h
    split at h
    next hbig => cases h; exact ⟨rfl, Nat.zero_le _⟩
    next hbig =>
      refine ackLoop_sum cfg fw pw max_send min_one fuel faq _ max_send false [] ?_ ?_ ?_ r h
      · simp
      · intro hc
        simp [AckFrameBuilder.new, AckFrameBuilder.count] at hc
      · intro _
        exact Nat.le_of_not_lt hbig

/-- Witness for C3: an empty data-frame run returning 0 emitted bytes, and a
`min_one` ack run emitting one 9-byte frame on a 9-byte budget. -/
theorem claim_C3_witness :
    ((0 : Nat) = (((DataFrameEmitter.new 0 fqW 9 []).emitted.map (·.len)).sum) ∧ (0 : Nat) ≤ 9) ∧
    ((9 : Nat) = ((([AckFrameBuilder.build cfgW (AckFrameBuilder.new 1 2)]).map (·.len)).sum) ∧
      (9 : Nat) ≤ 9) := by
  constructor
  · exact claim_C3_bytes_emitted.1 cfgW envW fqW [] 0 1 9 1 ⟨[], [], []⟩
      (0, DataFrameEmitter.new 0 fqW 9 [], ⟨[], [], []⟩) rfl
  · exact claim_C3_bytes_emitted.2 cfgW 1 2 9 true 3 []
      (9, [AckFrameBuilder.build cfgW (AckFrameBuilder.new 1 2)], []) rfl

/-- C7: The ack frames emitted by one call to `emit_ack_frames` together
contain exactly the peer frame-ack entries popped from the Frame-Ack Queue
during that call, in pop order: their concatenation followed by the remaining
queue reconstitutes the original queue. -/
theorem claim_C7_acks_exact :
    ∀ (cfg : Cfg) (fw pw max_send : Nat) (min_one : Bool) (fuel : Nat)
      (faq : List FrameAck) r,
      emit_ack_frames cfg fw pw max_send min_one fuel faq = some r →
      (r.2.1.map (·.acks)).flatten ++ r.2.2 = faq := by
  intro cfg fw pw max_send min_one fuel faq r h
  simp only [emit_ack_frames] at h
  split at h
  next hbig => cases h; simp
  next hbig =>
    have hpop := ackLoop_popped cfg fw pw max_send min_one fuel faq _ max_send false [] r h
    simpa [AckFrameBuilder.new] using hpop

/-- Witness for C7: two queued acks are packed into one frame; the frame's
content plus the (empty) remaining queue equals the original queue. -/
theorem claim_C7_witness :
    (([AckFrame.mk 17 1 2 [⟨0, 4⟩, ⟨1, 4⟩]].map (·.acks)).flatten ++ ([] : List FrameAck) =
      [⟨0, 4⟩, ⟨1, 4⟩] : Prop) :=
  claim_C7_acks_exact cfgW 1 2 100 false 5 [⟨0, 4⟩, ⟨1, 4⟩]
    (17, [⟨17, 1, 2, [⟨0, 4⟩, ⟨1, 4⟩]⟩], []) rfl

/-- C8: With `min_one = true`, when the empty ack builder fits in
`max_send_size` at least one ack frame is emitted (even on an empty queue);
when it does not fit, the call returns 0 and emits nothing. -/
theorem claim_C8_min_one :
    ∀ (cfg : Cfg) (fw pw max_send fuel : Nat) (faq : List FrameAck),
      (AckFrameBuilder.size cfg (AckFrameBuilder.new fw pw) ≤ max_send →
        ∀ r, emit_ack_frames cfg fw pw max_send true fuel faq = some r → r.2.1 ≠ []) ∧
      (AckFrameBuilder.size cfg (AckFrameBuilder.new fw pw) > max_send →
        emit_ack_frames cfg fw pw max_send true fuel faq = some (0, [], faq)) := by
  intro cfg fw pw max_send fuel faq
  constructor
  · intro hfits r h
    simp only [emit_ack_frames] at h
    split at h
    next hbig => omega
    next hbig =>
      exact ackLoop_min_one cfg fw pw max_send fuel faq _ max_send false []
        (fun hs => by cases hs) r h
  · intro hbig
    simp only [emit_ack_frames]
    rw [if_pos hbig]

/-- Witness for C8: on an empty queue with `min_one`, one frame is emitted
when the base builder fits (budget 9), and nothing when it does not (budget 8). -/
theorem claim_C8_witness :
    ([AckFrameBuilder.build cfgW (AckFrameBuilder.new 1 2)] ≠ ([] : List AckFrame)) ∧
    emit_ack_frames cfgW 1 2 8 true 3 [] = some (0, [], []) := by
  constructor
  · exact (claim_C8_min_one cfgW 1 2 9 3 []).1 (by decide)
      (9, [AckFrameBuilder.build cfgW (AckFrameBuilder.new 1 2)], []) rfl
  · exact (claim_C8_min_one cfgW 1 2 8 3 []).2 (by decide)

/-- C9: `emit_sync_frame` returns 0 and emits nothing when `SYNC_FRAME_SIZE`
exceeds `max_send_size`; otherwise it emits exactly one sync frame carrying
the two optional advisories and returns `SYNC_FRAME_SIZE`. -/
theorem claim_C9_sync_frame :
    ∀ (cfg : Cfg) (nfi npi : Option Nat) (max_send : Nat),
      (cfg.syncFrameSize > max_send → emit_sync_frame cfg nfi npi max_send = (0, [])) ∧
      (cfg.syncFrameSize ≤ max_send →
        emit_sync_frame cfg nfi npi max_send = (cfg.syncFrameSize, [⟨nfi, npi⟩])) := by
  intro cfg nfi npi max_send
  constructor
  · intro h
    simp only [emit_sync_frame]
    rw [if_pos h]
  · intro h
    simp only [emit_sync_frame]
    rw [if_neg (Nat.not_lt.mpr h)]

/-- Witness for C9 at concrete budgets 100 and 5 (sync frame size 9). -/
theorem claim_C9_witness :
    emit_sync_frame cfgW (some 3) none 100 = (9, [⟨some 3, none⟩]) ∧
    emit_sync_frame cfgW (some 3) none 5 = (0, []) := by
  constructor
  · exact (claim_C9_sync_frame cfgW (some 3) none 100).2 (by decide)
  · exact (claim_C9_sync_frame cfgW (some 3) none 5).1 (by decide)

/-- Count evolution of the resend schedule: `send_count` is clamped to
`MAX_SEND_COUNT`. -/
theorem resendSchedule_count (t0 rtt_ms : Nat) :
    ∀ n, (resendSchedule t0 rtt_ms n).2 = min (n + 1) MAX_SEND_COUNT := by
  intro n
  induction n with
  | zero => simp [resendSchedule, MAX_SEND_COUNT]
  | succ n ih =>
    simp only [resendSchedule, ih, MAX_SEND_COUNT] at *
    omega

/-- C2: In the resend drain, a successful push pops the head entry and pushes
a new entry with `resend_time = now_ms + rtt_ms * 2 ^ send_count` and
`send_count = min(send_count + 1, MAX_SEND_COUNT)`; consequently the schedule
of an unacknowledged `Resend` fragment first sent at `t0` starts at `t0 + rtt`
and advances by `rtt * 2 ^ min(n + 1, 2)` — deltas `1, 2, 4, 4, …` times
`rtt_ms`. -/
theorem claim_C2_resend_backoff :
    (∀ (cfg : Cfg) (env : List (Nat × PendingPacket)) (now_ms rtt_ms fuel : Nat)
       (st : EmitState) (dfe : DataFrameEmitter) (e : ResendEntry)
       (rest : List ResendEntry) (packet : PendingPacket) (dfe' : DataFrameEmitter),
       st.resend_queue = e :: rest →
       storeLookup env e.fragment_ref.packet_id = some packet →
       packet.fragment_acknowledged e.fragment_ref.fragment_id = false →
       ¬ e.resend_time > now_ms →
       DataFrameEmitter.push cfg dfe e.fragment_ref.packet_id packet
         e.fragment_ref.fragment_id true = (dfe', none) →
       phaseA cfg env now_ms rtt_ms (fuel + 1) st dfe =
         phaseA cfg env now_ms rtt_ms fuel
           { st with resend_queue :=
               resendPush ⟨e.fragment_ref, now_ms + rtt_ms * 2 ^ e.send_count,
                           min (e.send_count + 1) MAX_SEND_COUNT⟩ rest } dfe') ∧
    (∀ t0 rtt_ms : Nat,
       (resendSchedule t0 rtt_ms 0).1 = t0 + rtt_ms ∧
       ∀ n, (resendSchedule t0 rtt_ms (n + 1)).1 =
         (resendSchedule t0 rtt_ms n).1 + rtt_ms * 2 ^ (min (n + 1) MAX_SEND_COUNT)) := by
  constructor
  · intro cfg env now_ms rtt_ms fuel st dfe e rest packet dfe' hq hl hack htime hp
    simp only [phaseA, hq, hl, hack, htime, hp]
    simp
  · intro t0 rtt_ms
    refine ⟨rfl, fun n => ?_⟩
    conv_lhs => simp only [resendSchedule]
    rw [resendSchedule_count]

/-- Witness for C2: one due resend entry with `send_count = 1` at
`now_ms = 5`, `rtt_ms = 3` is rescheduled to `5 + 3·2¹ = 11` with count
clamped to 2; schedule deltas at `t0 = 100`, `rtt = 7`. -/
theorem claim_C2_witness :
    (phaseA cfgW envW 5 3 4 ⟨[], [], [⟨⟨0, 0⟩, 0, 1⟩]⟩ (DataFrameEmitter.new 5 fqW 100 [true]) =
      phaseA cfgW envW 5 3 3
        ⟨[], [], [⟨⟨0, 0⟩, 5 + 3 * 2 ^ 1, min 2 MAX_SEND_COUNT⟩]⟩
        ((DataFrameEmitter.push cfgW (DataFrameEmitter.new 5 fqW 100 [true]) 0 pW0 0 true).1)) ∧
    ((resendSchedule 100 7 0).1 = 100 + 7 ∧
      (resendSchedule 100 7 1).1 = (resendSchedule 100 7 0).1 + 7 * 2 ^ (min 1 MAX_SEND_COUNT)) := by
  constructor
  · exact claim_C2_resend_backoff.1 cfgW envW 5 3 3 ⟨[], [], [⟨⟨0, 0⟩, 0, 1⟩]⟩
      (DataFrameEmitter.new 5 fqW 100 [true]) ⟨⟨0, 0⟩, 0, 1⟩ [] pW0 _
      rfl rfl rfl (by decide) rfl
  · exact ⟨(claim_C2_resend_backoff.2 100 7).1, (claim_C2_resend_backoff.2 100 7).2 0⟩

/-- C6: whenever a push fails with `SizeLimited`, the in-progress frame (if
one existed) has already been flushed to the callback, the Frame Queue has
been marked rate-limited, and `emit_data_frames` returns the bytes-emitted
total instead of propagating an error — an early loop `return` yields
`some (total_size, …)`, never an error value. -/
theorem claim_C6_size_limited :
    (∀ (cfg : Cfg) (dfe : DataFrameEmitter) (pid : Nat) (p : PendingPacket)
       (i : Nat) (pers : Bool) (dfe' : DataFrameEmitter),
       DataFrameEmitter.push cfg dfe pid p i pers = (dfe', some .sizeLimited) →
       dfe'.in_progress_frame = none ∧ dfe'.frame_queue.rate_limited = true ∧
       ∀ nf, dfe.in_progress_frame = some nf →
         dfe'.emitted = dfe.emitted ++
           [⟨nf.fbuilder.size cfg, nf.fbuilder.frame_id, nf.nonce, nf.fbuilder.datagrams⟩]) ∧
    (∀ (cfg : Cfg) (env : List (Nat × PendingPacket)) (fq : FrameQueue) (nonces : List Bool)
       (now_ms rtt_ms max_send fuel : Nat) (st st' : EmitState) (dfe' : DataFrameEmitter),
       phaseA cfg env now_ms rtt_ms fuel st (DataFrameEmitter.new now_ms fq max_send nonces) =
         some (.ret st' dfe') →
       emit_data_frames cfg env fq nonces now_ms rtt_ms max_send fuel st =
         some (dfe'.total_size, dfe', st')) ∧
    (∀ (cfg : Cfg) (env : List (Nat × PendingPacket)) (fq : FrameQueue) (nonces : List Bool)
       (now_ms rtt_ms max_send fuel : Nat) (st st1 st2 : EmitState)
       (dfe1 dfe2 : DataFrameEmitter),
       phaseA cfg env now_ms rtt_ms fuel st (DataFrameEmitter.new now_ms fq max_send nonces) =
         some (.fall st1 dfe1) →
       phaseB cfg env now_ms rtt_ms fuel st1 dfe1 = some (.ret st2 dfe2) →
       emit_data_frames cfg env fq nonces now_ms rtt_ms max_send fuel st =
         some (dfe2.total_size, dfe2, st2)) := by
  refine ⟨fun cfg dfe pid p i pers dfe' hp => push_sizeLimited hp, ?_, ?_⟩
  · intro cfg env fq nonces now_ms rtt_ms max_send fuel st st' dfe' hA
    simp only [emit_data_frames]
    rw [hA]
  · intro cfg env fq nonces now_ms rtt_ms max_send fuel st st1 st2 dfe1 dfe2 hA hB
    simp only [emit_data_frames]
    simp only [hA, hB]

/-- Witness for C6: a push that overruns a 20-byte budget flushes the
17-byte in-progress frame, marks the queue rate-limited, and an early-return
run reports its byte total. -/
theorem claim_C6_witness :
    ((DataFrameEmitter.push cfgW
        ((DataFrameEmitter.push cfgW (DataFrameEmitter.new 0 fqW 20 [true]) 0 pW0 0 false).1)
        1 pW1 0 false).1.in_progress_frame = none ∧
     (DataFrameEmitter.push cfgW
        ((DataFrameEmitter.push cfgW (DataFrameEmitter.new 0 fqW 20 [true]) 0 pW0 0 false).1)
        1 pW1 0 false).1.frame_queue.rate_limited = true ∧
     (DataFrameEmitter.push cfgW
        ((DataFrameEmitter.push cfgW (DataFrameEmitter.new 0 fqW 20 [true]) 0 pW0 0 false).1)
        1 pW1 0 false).1.emitted =
       ((DataFrameEmitter.push cfgW (DataFrameEmitter.new 0 fqW 20 [true]) 0 pW0 0 false).1).emitted ++
         [⟨DataFrameBuilder.size cfgW ⟨0, true, [pW0.datagram 0 0]⟩, 0, true, [pW0.datagram 0 0]⟩]) ∧
    emit_data_frames cfgW envW fqW [] 0 3 5 3 ⟨[], [], [⟨⟨0, 0⟩, 0, 1⟩]⟩ =
      some ((DataFrameEmitter.push cfgW (DataFrameEmitter.new 0 fqW 5 []) 0 pW0 0 true).1.total_size,
            (DataFrameEmitter.push cfgW (DataFrameEmitter.new 0 fqW 5 []) 0 pW0 0 true).1,
            ⟨[], [], [⟨⟨0, 0⟩, 0, 1⟩]⟩) ∧
    emit_data_frames cfgW envW fqW [] 0 3 5 3 ⟨[], [⟨⟨0, 0⟩, false⟩], []⟩ =
      some ((DataFrameEmitter.push cfgW (DataFrameEmitter.new 0 fqW 5 []) 0 pW0 0 false).1.total_size,
            (DataFrameEmitter.push cfgW (DataFrameEmitter.new 0 fqW 5 []) 0 pW0 0 false).1,
            ⟨[], [⟨⟨0, 0⟩, false⟩], []⟩) := by
  have h1 := claim_C6_size_limited.1 cfgW
    ((DataFrameEmitter.push cfgW (DataFrameEmitter.new 0 fqW 20 [true]) 0 pW0 0 false).1)
    1 pW1 0 false _ rfl
  refine ⟨⟨h1.1, h1.2.1, h1.2.2 ⟨true, ⟨0, true, [pW0.datagram 0 0]⟩, []⟩ rfl⟩, ?_, ?_⟩
  · exact claim_C6_size_limited.2.1 cfgW envW fqW [] 0 3 5 3 ⟨[], [], [⟨⟨0, 0⟩, 0, 1⟩]⟩
      ⟨[], [], [⟨⟨0, 0⟩, 0, 1⟩]⟩ _ rfl
  · exact claim_C6_size_limited.2.2 cfgW envW fqW [] 0 3 5 3 ⟨[], [⟨⟨0, 0⟩, false⟩], []⟩
      ⟨[], [⟨⟨0, 0⟩, false⟩], []⟩ ⟨[], [⟨⟨0, 0⟩, false⟩], []⟩ _ _ rfl rfl

/-! ## The pending-drain divergence (claims C1 and C10) -/

/-- The Phase B inner drain never completes when the head pending entry is
dead or already acknowledged while the resend queue is empty: the source pops
the resend queue (emit_frame.rs lines 220 and 235) — a no-op on an empty
queue — and retries the same pending entry forever. -/
theorem pendingDrain_stuck (cfg : Cfg) (env : List (Nat × PendingPacket))
    (now_ms rtt_ms : Nat) (st : EmitState) (e : PendingEntry) (rest : List PendingEntry)
    (hq : st.pending_queue = e :: rest) (hr : st.resend_queue = [])
    (hbad : liveUnacked env e.fragment_ref = false) :
    ∀ fuel dfe, pendingDrain cfg env now_ms rtt_ms fuel st dfe = none := by
  obtain ⟨ps, pq, rq⟩ := st
  simp only at hq hr
  subst hq
  subst hr
  intro fuel
  induction fuel with
  | zero => intro dfe; rfl
  | succ n ih =>
    intro dfe
    simp only [pendingDrain]
    cases hl : storeLookup env e.fragment_ref.packet_id with
    | none =>
      simp only [hl]
      exact ih dfe
    | some packet =>
      have hackT : packet.fragment_acknowledged e.fragment_ref.fragment_id = true := by
        unfold liveUnacked at hbad
        rw [hl] at hbad
        simpa using hbad
      simp only [hl, hackT, if_pos]
      exact ih dfe

/-- C1 (code bug): in the Phase B inner drain, an already-acknowledged (or
dead) head entry is *not* popped from the pending queue — the source pops the
resend queue instead (emit_frame.rs line 220) — so the drain never continues
to the next pending entry: with packet 0 fully acknowledged and a live packet
1 queued right behind it, the run completes for no amount of fuel, where the
claimed behaviour would emit packet 1's datagram and return. -/
theorem claim_C1_pending_pop_bug :
    ∀ fuel, emit_data_frames cfgW envAck fqW [true] 0 3 100 fuel
      ⟨[], [⟨⟨0, 0⟩, false⟩, ⟨⟨1, 0⟩, false⟩], []⟩ = none := by
  intro fuel
  cases fuel with
  | zero => rfl
  | succ n =>
    have hstuck := pendingDrain_stuck cfgW envAck 0 3
      ⟨[], [⟨⟨0, 0⟩, false⟩, ⟨⟨1, 0⟩, false⟩], []⟩
      ⟨⟨0, 0⟩, false⟩ [⟨⟨1, 0⟩, false⟩] rfl rfl (by decide)
    simp [emit_data_frames, phaseA, phaseB, hstuck]

/-- C10 (code bug): `emit_data_frames` does not terminate on every finite
queue state: with the pending front holding a dead weak reference (packet id
99 absent from the store) and the resend queue empty, the run completes for
no amount of fuel — the source pops the empty resend queue and retries the
same pending entry forever. -/
theorem claim_C10_termination_bug :
    ∀ fuel, emit_data_frames cfgW envW fqW [true] 5 3 100 fuel
      ⟨[], [⟨⟨99, 0⟩, false⟩], []⟩ = none := by
  intro fuel
  cases fuel with
  | zero => rfl
  | succ n =>
    have hstuck := pendingDrain_stuck cfgW envW 5 3
      ⟨[], [⟨⟨99, 0⟩, false⟩], []⟩ ⟨⟨99, 0⟩, false⟩ [] rfl rfl (by decide)
    simp [emit_data_frames, phaseA, phaseB, hstuck]

/-- C4: assuming every datagram plus `DATA_FRAME_OVERHEAD` fits in
`MAX_FRAME_SIZE`, no data frame emitted by `emit_data_frames` exceeds
`MAX_FRAME_SIZE`; and when appending a datagram would overflow
`MAX_FRAME_SIZE`, `push` flushes the in-progress frame first and restarts
framing with that datagram. -/
theorem claim_C4_max_frame_size :
    (∀ (cfg : Cfg) (env : List (Nat × PendingPacket)) (fq : FrameQueue) (nonces : List Bool)
       (now_ms rtt_ms max_send fuel : Nat) (st : EmitState) r,
       fitsEnv cfg env →
       emit_data_frames cfg env fq nonces now_ms rtt_ms max_send fuel st = some r →
       ∀ f ∈ r.2.1.emitted, f.len ≤ cfg.maxFrameSize) ∧
    (∀ (cfg : Cfg) (dfe : DataFrameEmitter) (nf : InProgressDataFrame)
       (pid : Nat) (p : PendingPacket) (i : Nat) (pers : Bool),
       dfe.in_progress_frame = some nf →
       DataFrameBuilder.size cfg nf.fbuilder + (p.datagram pid i).encSize > cfg.maxFrameSize →
       DataFrameEmitter.push cfg dfe pid p i pers =
         DataFrameEmitter.push_initial cfg (dfe.flush cfg) pid p i pers) := by
  constructor
  · intro cfg env fq nonces now_ms rtt_ms max_send fuel st r hfits h
    have hP := emit_data_frames_preserves cfg env fq nonces now_ms rtt_ms max_send fuel st
      (framesFit cfg)
      (fun dfe pid p i pers hl hPP => framesFit_push pers (hfits pid p hl i) hPP)
      (fun dfe hPP => framesFit_flush hPP)
      (framesFit_new cfg now_ms fq max_send nonces) r h
    exact hP.1
  · intro cfg dfe nf pid p i pers hip hover
    rw [push_eq, hip]
    simp [hover]

/-- The witness store satisfies the fit assumption: every datagram of the
witness packets plus the 7-byte overhead fits in the 30-byte frame limit. -/
theorem fitsEnvW : fitsEnv cfgW envW := by
  intro pid p hl i
  simp only [envW, storeLookup] at hl
  split at hl
  next =>
    cases hl
    match i with
    | 0 => simp [pW0, PendingPacket.datagram, cfgW]
    | n + 1 => simp [pW0, PendingPacket.datagram, cfgW]
  next =>
    split at hl
    next =>
      cases hl
      match i with
      | 0 => simp [pW1, PendingPacket.datagram, cfgW]
      | 1 => simp [pW1, PendingPacket.datagram, cfgW]
      | n + 2 => simp [pW1, PendingPacket.datagram, cfgW]
    next => cases hl

/-- Witness for C4: the frame emitted by a concrete run is within the frame
limit, and a push that would overflow the limit equals flush-then-restart. -/
theorem claim_C4_witness :
    EmittedFrame.len ⟨17, 0, true, [pW0.datagram 0 0]⟩ ≤ cfgW.maxFrameSize ∧
    DataFrameEmitter.push cfgW
        ((DataFrameEmitter.push cfgW
          ((DataFrameEmitter.push cfgW (DataFrameEmitter.new 0 fqW 100 [true]) 0 pW0 0 false).1)
          1 pW1 0 false).1)
        1 pW1 1 false =
      DataFrameEmitter.push_initial cfgW
        (((DataFrameEmitter.push cfgW
            ((DataFrameEmitter.push cfgW (DataFrameEmitter.new 0 fqW 100 [true]) 0 pW0 0 false).1)
            1 pW1 0 false).1).flush cfgW)
        1 pW1 1 false := by
  constructor
  · refine claim_C4_max_frame_size.1 cfgW envW fqW [true] 0 3 100 5
      ⟨[], [⟨⟨0, 0⟩, false⟩], []⟩
      (17, ⟨0, ⟨1, 16, [⟨0, 17, 0, [], true⟩], false⟩, none, 100, 83,
            [⟨17, 0, true, [pW0.datagram 0 0]⟩], []⟩, ⟨[], [], []⟩)
      fitsEnvW rfl ⟨17, 0, true, [pW0.datagram 0 0]⟩ ?_
    simp
  · exact claim_C4_max_frame_size.2 cfgW
      ((DataFrameEmitter.push cfgW
        ((DataFrameEmitter.push cfgW (DataFrameEmitter.new 0 fqW 100 [true]) 0 pW0 0 false).1)
        1 pW1 0 false).1)
      ⟨true, ⟨0, true, [pW0.datagram 0 0, pW1.datagram 1 0]⟩, []⟩ 1 pW1 1 false rfl (by decide)

/-! ## Emission order (claim C5) -/

theorem resendDrainRefs_cons (env : List (Nat × PendingPacket)) (now_ms : Nat)
    (e : ResendEntry) (rest : List ResendEntry) :
    resendDrainRefs env now_ms (e :: rest) =
      if e.resend_time ≤ now_ms then
        (if liveUnacked env e.fragment_ref then
          e.fragment_ref :: resendDrainRefs env now_ms rest
        else resendDrainRefs env now_ms rest)
      else [] := rfl

theorem resendDrainRefs_cons_notLive {env : List (Nat × PendingPacket)} {now_ms : Nat}
    {e : ResendEntry} {rest : List ResendEntry}
    (hs : sortedByTime (e :: rest) = true)
    (hbad : liveUnacked env e.fragment_ref = false) :
    resendDrainRefs env now_ms (e :: rest) = resendDrainRefs env now_ms rest := by
  by_cases ht : e.resend_time ≤ now_ms
  · rw [resendDrainRefs_cons, if_pos ht, hbad]
    simp
  · rw [resendDrainRefs_cons, if_neg ht, resendDrainRefs_stop hs ht]

theorem resendDrainRefs_cons_live {env : List (Nat × PendingPacket)} {now_ms : Nat}
    {e : ResendEntry} {rest : List ResendEntry}
    (ht : e.resend_time ≤ now_ms) (hlive : liveUnacked env e.fragment_ref = true) :
    resendDrainRefs env now_ms (e :: rest) =
      e.fragment_ref :: resendDrainRefs env now_ms rest := by
  rw [resendDrainRefs_cons, if_pos ht, hlive]
  simp

theorem resendDrainRefs_cons_gt {env : List (Nat × PendingPacket)} {now_ms : Nat}
    {e : ResendEntry} (rest : List ResendEntry) (ht : ¬ e.resend_time ≤ now_ms) :
    resendDrainRefs env now_ms (e :: rest) = [] := by
  rw [resendDrainRefs_cons, if_neg ht]

theorem datagramOf_eq {env : List (Nat × PendingPacket)} {fr : FragmentRef}
    {p : PendingPacket} (hl : storeLookup env fr.packet_id = some p) :
    datagramOf env fr = p.datagram fr.packet_id fr.fragment_id := by
  simp [datagramOf, hl]

/-- Phase A emits exactly the live, unacknowledged, due entries of the
(time-sorted) resend queue, in queue order — a prefix of them when the drain
returns early.  Phase A does not touch the pending queue or the sender. -/
theorem phaseA_order (cfg : Cfg) (env : List (Nat × PendingPacket)) (now_ms rtt_ms : Nat)
    (hrtt : 1 ≤ rtt_ms) :
    ∀ fuel st dfe out,
      sortedByTime st.resend_queue = true →
      phaseA cfg env now_ms rtt_ms fuel st dfe = some out →
      (∀ st' dfe', out = .ret st' dfe' →
        ∃ l, prefixOf l (resendDrainRefs env now_ms st.resend_queue) ∧
          allDatagrams dfe' = allDatagrams dfe ++ l.map (datagramOf env)) ∧
      (∀ st' dfe', out = .fall st' dfe' →
        allDatagrams dfe' = allDatagrams dfe ++
          ((resendDrainRefs env now_ms st.resend_queue).map (datagramOf env)) ∧
        st'.pending_queue = st.pending_queue ∧ st'.packet_sender = st.packet_sender) := by
  intro fuel
  induction fuel with
  | zero => intro st dfe out hs h; simp [phaseA] at h
  | succ n ih =>
    intro st dfe out hs h
    simp only [phaseA] at h
    split at h
    next hq =>
      cases h
      refine ⟨fun st' dfe' h' => LoopOut.noConfusion h', fun st' dfe' h' => ?_⟩
      cases h'
      rw [hq]
      refine ⟨?_, rfl, rfl⟩
      simp [resendDrainRefs]
    next entry rest hq =>
      have hs' : sortedByTime rest = true := sortedByTime_tail (hq ▸ hs)
      split at h
      next packet hl =>
        split at h
        next hack =>
          have hbad : liveUnacked env entry.fragment_ref = false := by
            simp [liveUnacked, hl, hack]
          have hdr : resendDrainRefs env now_ms st.resend_queue =
              resendDrainRefs env now_ms rest := by
            rw [hq]
            exact resendDrainRefs_cons_notLive (hq ▸ hs) hbad
          have hih := ih _ _ _ hs' h
          rw [hdr]
          exact hih
        next hack =>
          split at h
          next htime =>
            cases h
            refine ⟨fun st' dfe' h' => LoopOut.noConfusion h', fun st' dfe' h' => ?_⟩
            cases h'
            rw [hq, resendDrainRefs_cons_gt rest (by omega)]
            refine ⟨?_, rfl, rfl⟩
            simp
          next htime =>
            have hlive : liveUnacked env entry.fragment_ref = true := by
              simp only [liveUnacked, hl]
              simp [hack]
            have hdr : resendDrainRefs env now_ms st.resend_queue =
                entry.fragment_ref :: resendDrainRefs env now_ms rest := by
              rw [hq]
              exact resendDrainRefs_cons_live (by omega) hlive
            split at h
            next dfe' e hp =>
              cases h
              refine ⟨fun st'' dfe'' h' => ?_, fun st'' dfe'' h' => LoopOut.noConfusion h'⟩
              cases h'
              refine ⟨[], prefixOf_nil _, ?_⟩
              rw [(allDatagrams_push hp).2 (by simp), List.map_nil, List.append_nil]
            next dfe' hp =>
              have hd : allDatagrams dfe' =
                  allDatagrams dfe ++ [datagramOf env entry.fragment_ref] := by
                rw [(allDatagrams_push hp).1 rfl, datagramOf_eq hl]
              have hsorted' : sortedByTime (resendPush
                  ⟨entry.fragment_ref, now_ms + rtt_ms * 2 ^ entry.send_count,
                   min (entry.send_count + 1) MAX_SEND_COUNT⟩ rest) = true :=
                resendPush_sorted _ hs'
              have hgt : ¬ (now_ms + rtt_ms * 2 ^ entry.send_count ≤ now_ms) := by
                have hpow : 0 < 2 ^ entry.send_count := Nat.pos_pow_of_pos _ (by omega)
                have : 0 < rtt_ms * 2 ^ entry.send_count := Nat.mul_pos (by omega) hpow
                omega
              have hdr2 : resendDrainRefs env now_ms (resendPush
                  ⟨entry.fragment_ref, now_ms + rtt_ms * 2 ^ entry.send_count,
                   min (entry.send_count + 1) MAX_SEND_COUNT⟩ rest) =
                  resendDrainRefs env now_ms rest :=
                resendDrainRefs_push_gt rest hgt
              have hih := ih _ _ _ hsorted' h
              rw [hdr]
              constructor
              · intro st'' dfe'' h'
                obtain ⟨l, hpre, heq⟩ := hih.1 st'' dfe'' h'
                rw [hdr2] at hpre
                refine ⟨entry.fragment_ref :: l, prefixOf_cons _ hpre, ?_⟩
                rw [heq, hd]
                simp
              · intro st'' dfe'' h'
                obtain ⟨heq, hpend, hsend⟩ := hih.2 st'' dfe'' h'
                rw [hdr2] at heq
                refine ⟨?_, hpend, hsend⟩
                rw [heq, hd]
                simp
      next hl =>
        have hbad : liveUnacked env entry.fragment_ref = false := by
          simp [liveUnacked, hl]
        have hdr : resendDrainRefs env now_ms st.resend_queue =
            resendDrainRefs env now_ms rest := by
          rw [hq]
          exact resendDrainRefs_cons_notLive (hq ▸ hs) hbad
        have hih := ih _ _ _ hs' h
        rw [hdr]
        exact hih

/-- The pending drain, when every queued entry is live and unacknowledged,
emits exactly the pending queue's fragments in FIFO order (a prefix on early
return), leaves the pending queue empty on fall-through, and never touches
the packet sender. -/
theorem pendingDrain_order (cfg : Cfg) (env : List (Nat × PendingPacket))
    (now_ms rtt_ms : Nat) :
    ∀ fuel st dfe out,
      (∀ e ∈ st.pending_queue, liveUnacked env e.fragment_ref = true) →
      pendingDrain cfg env now_ms rtt_ms fuel st dfe = some out →
      (∀ st' dfe', out = .ret st' dfe' →
        ∃ l, prefixOf l (pendingRefs st) ∧
          allDatagrams dfe' = allDatagrams dfe ++ l.map (datagramOf env)) ∧
      (∀ st' dfe', out = .fall st' dfe' →
        allDatagrams dfe' = allDatagrams dfe ++ ((pendingRefs st).map (datagramOf env)) ∧
        st'.pending_queue = [] ∧ st'.packet_sender = st.packet_sender) := by
  intro fuel
  induction fuel with
  | zero => intro st dfe out hlive h; simp [pendingDrain] at h
  | succ n ih =>
    intro st dfe out hlive h
    simp only [pendingDrain] at h
    split at h
    next hq =>
      cases h
      refine ⟨fun st' dfe' h' => LoopOut.noConfusion h', fun st' dfe' h' => ?_⟩
      cases h'
      refine ⟨?_, hq, rfl⟩
      simp [pendingRefs, hq]
    next entry rest hq =>
      have hl0 : liveUnacked env entry.fragment_ref = true :=
        hlive entry (by rw [hq]; exact List.mem_cons_self _ _)
      obtain ⟨packet, hl, hack⟩ := liveUnacked_iff.mp hl0
      have hlive' : ∀ e ∈ rest, liveUnacked env e.fragment_ref = true :=
        fun e he => hlive e (by rw [hq]; exact List.mem_cons_of_mem _ he)
      have hrefs : pendingRefs st = entry.fragment_ref :: rest.map (·.fragment_ref) := by
        rw [pendingRefs, hq, List.map_cons]
      split at h
      next packet' hl' =>
        rw [hl] at hl'
        cases hl'
        split at h
        next hackT =>
          rw [hack] at hackT
          cases hackT
        next hackT =>
          split at h
          next dfe' e hp =>
            cases h
            refine ⟨fun st'' dfe'' h' => ?_, fun st'' dfe'' h' => LoopOut.noConfusion h'⟩
            cases h'
            refine ⟨[], prefixOf_nil _, ?_⟩
            rw [(allDatagrams_push hp).2 (by simp)]
            simp
          next dfe' hp =>
            have hd : allDatagrams dfe' =
                allDatagrams dfe ++ [datagramOf env entry.fragment_ref] := by
              rw [(allDatagrams_push hp).1 rfl, datagramOf_eq hl]
            split at h
            next hres =>
              have hih := ih _ _ _ hlive' h
              constructor
              · intro st'' dfe'' h'
                obtain ⟨l, hpre, heq⟩ := hih.1 st'' dfe'' h'
                refine ⟨entry.fragment_ref :: l, ?_, ?_⟩
                · rw [hrefs]
                  exact prefixOf_cons _ hpre
                · rw [heq, hd]
                  simp
              · intro st'' dfe'' h'
                obtain ⟨heq, hpend, hsend⟩ := hih.2 st'' dfe'' h'
                refine ⟨?_, hpend, hsend⟩
                rw [heq, hd, hrefs]
                simp [pendingRefs, List.map_map]
            next hres =>
              have hih := ih _ _ _ hlive' h
              constructor
              · intro st'' dfe'' h'
                obtain ⟨l, hpre, heq⟩ := hih.1 st'' dfe'' h'
                refine ⟨entry.fragment_ref :: l, ?_, ?_⟩
                · rw [hrefs]
                  exact prefixOf_cons _ hpre
                · rw [heq, hd]
                  simp
              · intro st'' dfe'' h'
                obtain ⟨heq, hpend, hsend⟩ := hih.2 st'' dfe'' h'
                refine ⟨?_, hpend, hsend⟩
                rw [heq, hd, hrefs]
                simp [pendingRefs, List.map_map]
      next hl' =>
        rw [hl] at hl'
        cases hl'

theorem pendingRefs_refill (ps : List SenderEntry) (pq : List PendingEntry)
    (rq : List ResendEntry) (se : SenderEntry) :
    pendingRefs ⟨ps, pq ++ (List.range (se.packet.last_fragment_id + 1)).map
        (fun i => PendingEntry.mk ⟨se.packet_id, i⟩ se.resend), rq⟩ =
      pq.map (·.fragment_ref) ++ (List.range (se.packet.last_fragment_id + 1)).map
        (fun i => FragmentRef.mk se.packet_id i) := by
  simp [pendingRefs, List.map_map, Function.comp]

theorem senderRefs_cons {st : EmitState} {se : SenderEntry} {srest : List SenderEntry}
    (hs : st.packet_sender = se :: srest) :
    senderRefs st = (List.range (se.packet.last_fragment_id + 1)).map
        (fun i => FragmentRef.mk se.packet_id i) ++
      (srest.map (fun se' => (List.range (se'.packet.last_fragment_id + 1)).map
        (fun i => FragmentRef.mk se'.packet_id i))).flatten := by
  rw [senderRefs, hs]
  simp

/-- Phase B, when every pending entry is live-unacknowledged and the Packet
Sender queue is consistent with the store, emits the pending queue's
fragments in FIFO order followed by the sender's packets in order, each
packet's fragments in ascending fragment-id order (a prefix thereof on early
return). -/
theorem phaseB_order (cfg : Cfg) (env : List (Nat × PendingPacket)) (now_ms rtt_ms : Nat) :
    ∀ fuel st dfe out,
      (∀ e ∈ st.pending_queue, liveUnacked env e.fragment_ref = true) →
      senderOk env st →
      phaseB cfg env now_ms rtt_ms fuel st dfe = some out →
      (∀ st' dfe', out = .ret st' dfe' →
        ∃ l, prefixOf l (pendingRefs st ++ senderRefs st) ∧
          allDatagrams dfe' = allDatagrams dfe ++ l.map (datagramOf env)) ∧
      (∀ st' dfe', out = .fall st' dfe' →
        allDatagrams dfe' = allDatagrams dfe ++
          ((pendingRefs st ++ senderRefs st).map (datagramOf env))) := by
  intro fuel
  induction fuel with
  | zero => intro st dfe out h1 h2 h; simp [phaseB] at h
  | succ n ih =>
    intro st dfe out hlive hsOk h
    simp only [phaseB] at h
    split at h
    next hemp =>
      have hpq : st.pending_queue = [] := by
        cases hq : st.pending_queue with
        | nil => rfl
        | cons a as => rw [hq] at hemp; simp [List.isEmpty] at hemp
      split at h
      next hs =>
        cases h
        refine ⟨fun st' dfe' h' => LoopOut.noConfusion h', fun st' dfe' h' => ?_⟩
        cases h'
        simp [pendingRefs, senderRefs, hpq, hs]
      next se srest hs =>
        have hok := hsOk se (by rw [hs]; exact List.mem_cons_self _ _)
        have hlive1 : ∀ e ∈ st.pending_queue ++ (List.range (se.packet.last_fragment_id + 1)).map
            (fun i => PendingEntry.mk ⟨se.packet_id, i⟩ se.resend),
            liveUnacked env e.fragment_ref = true := by
          intro e he
          rw [hpq, List.nil_append] at he
          simp only [List.mem_map, List.mem_range] at he
          obtain ⟨i, _, rfl⟩ := he
          exact liveUnacked_iff.mpr ⟨se.packet, hok.1, hok.2 i⟩
        have hblock := pendingRefs_refill srest st.pending_queue st.resend_queue se
        have hsref : senderRefs st =
            (List.range (se.packet.last_fragment_id + 1)).map
              (fun i => FragmentRef.mk se.packet_id i) ++
            (srest.map (fun se' => (List.range (se'.packet.last_fragment_id + 1)).map
              (fun i => FragmentRef.mk se'.packet_id i))).flatten := senderRefs_cons hs
        split at h
        next hd => exact absurd h (by simp)
        next st'' dfe'' hd =>
          cases h
          have hpd := pendingDrain_order cfg env now_ms rtt_ms _ _ _ _ hlive1 hd
          refine ⟨fun st3 dfe3 h' => ?_, fun st3 dfe3 h' => LoopOut.noConfusion h'⟩
          cases h'
          obtain ⟨l, hpre, heq⟩ := hpd.1 _ _ rfl
          rw [hblock, hpq, List.map_nil, List.nil_append] at hpre
          refine ⟨l, ?_, heq⟩
          rw [hsref]
          simp only [pendingRefs, hpq, List.map_nil, List.nil_append]
          exact prefixOf_append_right _ hpre
        next st'' dfe'' hd =>
          have hpd := pendingDrain_order cfg env now_ms rtt_ms _ _ _ _ hlive1 hd
          obtain ⟨heq2, hpend2, hsend2⟩ := hpd.2 _ _ rfl
          rw [hblock, hpq, List.map_nil, List.nil_append] at heq2
          simp only at hsend2
          have hih := ih st'' dfe'' out
            (fun e he => by rw [hpend2] at he; cases he)
            (fun se' he' => by
              rw [hsend2] at he'
              exact hsOk se' (by rw [hs]; exact List.mem_cons_of_mem _ he')) h
          have hsr'' : senderRefs st'' =
              (srest.map (fun se' => (List.range (se'.packet.last_fragment_id + 1)).map
                (fun i => FragmentRef.mk se'.packet_id i))).flatten := by
            rw [senderRefs, hsend2]
          have hpr'' : pendingRefs st'' = [] := by
            rw [pendingRefs, hpend2]
            rfl
          constructor
          · intro st3 dfe3 h'
            obtain ⟨l, hpre, heq3⟩ := hih.1 st3 dfe3 h'
            rw [hpr'', hsr'', List.nil_append] at hpre
            refine ⟨(List.range (se.packet.last_fragment_id + 1)).map
              (fun i => FragmentRef.mk se.packet_id i) ++ l, ?_, ?_⟩
            · rw [hsref]
              simp only [pendingRefs, hpq, List.map_nil, List.nil_append]
              exact prefixOf_append_left _ hpre
            · rw [heq3, heq2]
              simp
          · intro st3 dfe3 h'
            have heq3 := hih.2 st3 dfe3 h'
            rw [hpr'', hsr'', List.nil_append] at heq3
            rw [heq3, heq2, hsref]
            simp [pendingRefs, hpq]
    next hemp =>
      split at h
      next hd => exact absurd h (by simp)
      next st'' dfe'' hd =>
        cases h
        have hpd := pendingDrain_order cfg env now_ms rtt_ms _ _ _ _ hlive hd
        refine ⟨fun st3 dfe3 h' => ?_, fun st3 dfe3 h' => LoopOut.noConfusion h'⟩
        cases h'
        obtain ⟨l, hpre, heq⟩ := hpd.1 _ _ rfl
        exact ⟨l, prefixOf_append_right _ hpre, heq⟩
      next st'' dfe'' hd =>
        have hpd := pendingDrain_order cfg env now_ms rtt_ms _ _ _ _ hlive hd
        obtain ⟨heq2, hpend2, hsend2⟩ := hpd.2 _ _ rfl
        have hih := ih st'' dfe'' out
          (fun e he => by rw [hpend2] at he; cases he)
          (fun se' he' => by rw [hsend2] at he'; exact hsOk se' he') h
        have hsr'' : senderRefs st'' = senderRefs st := by
          rw [senderRefs, hsend2, senderRefs]
        have hpr'' : pendingRefs st'' = [] := by
          rw [pendingRefs, hpend2]
          rfl
        constructor
        · intro st3 dfe3 h'
          obtain ⟨l, hpre, heq3⟩ := hih.1 st3 dfe3 h'
          rw [hpr'', hsr'', List.nil_append] at hpre
          refine ⟨pendingRefs st ++ l, prefixOf_append_left _ hpre, ?_⟩
          rw [heq3, heq2]
          simp
        · intro st3 dfe3 h'
          have heq3 := hih.2 st3 dfe3 h'
          rw [hpr'', hsr'', List.nil_append] at heq3
          rw [heq3, heq2]
          simp

theorem pendingRefs_congr {st st' : EmitState} (h : st'.pending_queue = st.pending_queue) :
    pendingRefs st' = pendingRefs st := by
  simp [pendingRefs, h]

theorem senderRefs_congr {st st' : EmitState} (h : st'.packet_sender = st.packet_sender) :
    senderRefs st' = senderRefs st := by
  simp [senderRefs, h]

/-- C5: within one call to `emit_data_frames`, every datagram originating
from a resend-queue entry is pushed before any datagram originating from a
pending-queue entry; the resend queue is drained in time order, the pending
queue in FIFO order (refilled packet by packet from the sender), and the
fragments of any one packet are pushed in ascending fragment-id order: the
emitted datagram sequence is a prefix of the canonical drain order
`resendDrainRefs ++ pendingRefs ++ senderRefs`. -/
theorem claim_C5_emission_order :
    ∀ (cfg : Cfg) (env : List (Nat × PendingPacket)) (fq : FrameQueue) (nonces : List Bool)
      (now_ms rtt_ms max_send fuel : Nat) (st : EmitState) r,
      sortedByTime st.resend_queue = true →
      1 ≤ rtt_ms →
      (∀ e ∈ st.pending_queue, liveUnacked env e.fragment_ref = true) →
      senderOk env st →
      emit_data_frames cfg env fq nonces now_ms rtt_ms max_send fuel st = some r →
      prefixOf (emittedJoin r.2.1)
        ((resendDrainRefs env now_ms st.resend_queue ++ (pendingRefs st ++ senderRefs st)).map
          (datagramOf env)) := by
  intro cfg env fq nonces now_ms rtt_ms max_send fuel st r hsorted hrtt hlive hsOk h
  simp only [emit_data_frames] at h
  split at h
  next hA => exact absurd h (by simp)
  next st' dfe' hA =>
    cases h
    have hpa := phaseA_order cfg env now_ms rtt_ms hrtt _ _ _ _ hsorted hA
    obtain ⟨l, hpre, heq⟩ := hpa.1 _ _ rfl
    have h1 := emittedJoin_prefixOf_allDatagrams dfe'
    rw [heq, allDatagrams_new, List.nil_append] at h1
    exact prefixOf_trans h1 (prefixOf_map _ (prefixOf_append_right _ hpre))
  next st' dfe' hA =>
    have hpa := phaseA_order cfg env now_ms rtt_ms hrtt _ _ _ _ hsorted hA
    obtain ⟨heqA, hpendA, hsendA⟩ := hpa.2 _ _ rfl
    rw [allDatagrams_new, List.nil_append] at heqA
    have hliveA : ∀ e ∈ st'.pending_queue, liveUnacked env e.fragment_ref = true := by
      rw [hpendA]
      exact hlive
    have hsOkA : senderOk env st' := by
      intro se he
      rw [hsendA] at he
      exact hsOk se he
    split at h
    next hB => exact absurd h (by simp)
    next st'' dfe'' hB =>
      cases h
      have hpb := phaseB_order cfg env now_ms rtt_ms _ _ _ _ hliveA hsOkA hB
      obtain ⟨l, hpre, heq⟩ := hpb.1 _ _ rfl
      rw [pendingRefs_congr hpendA, senderRefs_congr hsendA] at hpre
      have h1 := emittedJoin_prefixOf_allDatagrams dfe''
      rw [heq, heqA] at h1
      refine prefixOf_trans h1 ?_
      rw [List.map_append]
      exact prefixOf_append_left _ (prefixOf_map _ hpre)
    next st'' dfe'' hB =>
      cases h
      have hpb := phaseB_order cfg env now_ms rtt_ms _ _ _ _ hliveA hsOkA hB
      have heqB := hpb.2 _ _ rfl
      rw [pendingRefs_congr hpendA, senderRefs_congr hsendA] at heqB
      show prefixOf (emittedJoin (dfe''.flush cfg)) _
      rw [emittedJoin_flush, heqB, heqA, ← List.map_append]
      exact prefixOf_refl _

/-- The witness sender queue is consistent with the witness store. -/
theorem senderOkW :
    senderOk envW ⟨[⟨1, pW1, true⟩], [⟨⟨0, 0⟩, false⟩], [⟨⟨0, 0⟩, 2, 1⟩]⟩ := by
  intro se he
  simp only [List.mem_singleton] at he
  subst he
  refine ⟨rfl, fun i => ?_⟩
  match i with
  | 0 => rfl
  | 1 => rfl
  | n + 2 => rfl

/-- Witness for C5: a run with one due resend entry, one pending entry and a
two-fragment sender packet emits the resend datagram first, then the pending
one, then the sender packet's fragments in ascending fragment-id order. -/
theorem claim_C5_witness :
    prefixOf
      (emittedJoin ⟨10,
        ⟨2, 16, [⟨0, 27, 10, [⟨0, 0⟩], true⟩, ⟨1, 23, 10, [⟨1, 0⟩, ⟨1, 1⟩], false⟩], false⟩,
        none, 100, 50,
        [⟨27, 0, true, [⟨0, 0, 10⟩, ⟨0, 0, 10⟩]⟩, ⟨23, 1, false, [⟨1, 0, 8⟩, ⟨1, 1, 8⟩]⟩],
        [true]⟩)
      ((resendDrainRefs envW 10 [⟨⟨0, 0⟩, 2, 1⟩] ++
        (pendingRefs ⟨[⟨1, pW1, true⟩], [⟨⟨0, 0⟩, false⟩], [⟨⟨0, 0⟩, 2, 1⟩]⟩ ++
         senderRefs ⟨[⟨1, pW1, true⟩], [⟨⟨0, 0⟩, false⟩], [⟨⟨0, 0⟩, 2, 1⟩]⟩)).map
        (datagramOf envW)) :=
  claim_C5_emission_order cfgW envW fqW [true, false, true] 10 3 100 30
    ⟨[⟨1, pW1, true⟩], [⟨⟨0, 0⟩, false⟩], [⟨⟨0, 0⟩, 2, 1⟩]⟩
    (50,
     ⟨10,
      ⟨2, 16, [⟨0, 27, 10, [⟨0, 0⟩], true⟩, ⟨1, 23, 10, [⟨1, 0⟩, ⟨1, 1⟩], false⟩], false⟩,
      none, 100, 50,
      [⟨27, 0, true, [⟨0, 0, 10⟩, ⟨0, 0, 10⟩]⟩, ⟨23, 1, false, [⟨1, 0, 8⟩, ⟨1, 1, 8⟩]⟩],
      [true]⟩,
     ⟨[], [], [⟨⟨1, 0⟩, 13, 1⟩, ⟨⟨1, 1⟩, 13, 1⟩, ⟨⟨0, 0⟩, 16, 2⟩]⟩)
    (by decide) (by decide) (by decide) senderOkW rfl

end Porous
